import Mathlib

/-!
# Verification of the Pickleball Round-Robin core (`src/App.tsx`)

Shallow embedding of the program's core: the URL-safe base64 helpers, the
standings aggregator (`calculateStandings`), the match generator and
Fisher-Yates shuffle of `handleCreateTournament`, the score-update and
match-deletion operations, and the share codec (`handleShare` and the decode
`useEffect`).

Modelling conventions:
* JavaScript numbers that only ever hold integers are `Int` (scores, counters)
  or `Nat` (identifiers, indices).  `number | null` fields are `Option`.
* TypeScript optional string fields (`location?`, `time?`) are `Option String`.
* A JavaScript object with numeric keys (the `stats` accumulator) is an
  association list kept in `Object.values` enumeration order: keys that are
  array indices (canonical integers up to `2^32 - 2`) first, in ascending
  order, then all larger keys in insertion order.
* A destructured compact-record slot distinguishes `undefined` (a record
  shorter than the pattern, `none`) from a stored JSON `null` (`some none`),
  because `score1 !== null` distinguishes them.
* Fallible steps (`atob`, `pako.inflate`, `JSON.parse`) return `Option`; the
  single `try/catch` of the decode effect is the `Option` bind chain.
* The compression and JSON primitives are external collaborators (spec
  section 6), not repository code; they enter as function parameters together
  with the round-trip hypotheses the spec demands of any conformant
  implementation.
-/

/-- `Player` from `types.ts`: numeric id plus display name. -/
structure Player where
  id : Nat
  name : String
  deriving DecidableEq, Repr

instance : Inhabited Player := ⟨⟨0, ""⟩⟩

/-- A team is an ordered pair of players (`{ player1, player2 }`). -/
structure Team where
  player1 : Player
  player2 : Player
  deriving DecidableEq, Repr

/-- `Match` from `types.ts`: string id, two teams, two nullable scores, a
completed flag. -/
structure Match where
  id : String
  team1 : Team
  team2 : Team
  score1 : Option Int
  score2 : Option Int
  completed : Bool
  deriving DecidableEq, Repr

/-- `Tournament` from `types.ts`.  `location` and `time` are optional. -/
structure Tournament where
  id : String
  name : String
  createdAt : String
  players : List Player
  matches' : List Match
  location : Option String
  time : Option String
  deriving DecidableEq, Repr

/-- `StandingsEntry` from `types.ts`. -/
structure StandingsEntry where
  playerId : Nat
  playerName : String
  wins : Nat
  losses : Nat
  pointsFor : Int
  pointsAgainst : Int
  pointDifferential : Int
  matchesPlayed : Nat
  deriving DecidableEq, Repr

/-! ## URL-safe base64 (`uint8ArrayToBase64Url`, `base64UrlToUint8Array`)

Bytes are `Nat`s; the functions are specified for values `< 256` (the
`Uint8Array` guarantee).  `window.btoa`/`window.atob` are modelled by
`btoaChars`/`atobChars` on character lists; the intermediate "binary string"
built with `String.fromCharCode` is the identity on byte values below 256 and
is fused away. -/

/-- The standard base64 alphabet, in index order. -/
def b64Chars : List Char :=
  "ABCDEFGHIJKLMNOPQRSTUVWXYZabcdefghijklmnopqrstuvwxyz0123456789+/".data

/-- Sextet value to base64 character. -/
def b64Enc (n : Nat) : Char := b64Chars.getD n '?'

/-- Base64 character back to its sextet value; `none` for characters outside
the alphabet (this is where `atob` raises `InvalidCharacterError`). -/
def b64Dec (c : Char) : Option Nat := b64Chars.findIdx? (fun x => x == c)

/-- `window.btoa` on the byte values of the binary string: 3-byte blocks become
4 alphabet characters, a 2-byte tail becomes 3 characters plus `=`, a 1-byte
tail becomes 2 characters plus `==`. -/
def btoaChars : List Nat → List Char
  | [] => []
  | [b1] => [b64Enc (b1 / 4), b64Enc (b1 % 4 * 16), '=', '=']
  | [b1, b2] => [b64Enc (b1 / 4), b64Enc (b1 % 4 * 16 + b2 / 16), b64Enc (b2 % 16 * 4), '=']
  | b1 :: b2 :: b3 :: r =>
      b64Enc (b1 / 4) :: b64Enc (b1 % 4 * 16 + b2 / 16) ::
      b64Enc (b2 % 16 * 4 + b3 / 64) :: b64Enc (b3 % 64) :: btoaChars r

/-- The 4-character block phase of `window.atob`: `=`-padding is accepted only
at the very end; any other shape or any character outside the alphabet fails. -/
def atobBlocks : List Char → Option (List Nat)
  | [] => some []
  | c1 :: c2 :: c3 :: c4 :: r =>
      if c3 = '=' then
        if c4 = '=' ∧ r = [] then
          match b64Dec c1, b64Dec c2 with
          | some v1, some v2 => some [v1 * 4 + v2 / 16]
          | _, _ => none
        else none
      else if c4 = '=' then
        if r = [] then
          match b64Dec c1, b64Dec c2, b64Dec c3 with
          | some v1, some v2, some v3 => some [v1 * 4 + v2 / 16, v2 % 16 * 16 + v3 / 4]
          | _, _, _ => none
        else none
      else
        match b64Dec c1, b64Dec c2, b64Dec c3, b64Dec c4, atobBlocks r with
        | some v1, some v2, some v3, some v4, some rest =>
            some ((v1 * 4 + v2 / 16) :: (v2 % 16 * 16 + v3 / 4) :: (v3 % 4 * 64 + v4) :: rest)
        | _, _, _, _, _ => none
  | _ => none

/-- The five ASCII whitespace characters (TAB, LF, FF, CR, SPACE) that the
forgiving-base64 decode behind `window.atob` removes before decoding. -/
def isB64Space (c : Char) : Bool :=
  c == '\t' || c == '\n' || c == '\x0c' || c == '\r' || c == ' '

/-- `window.atob`: strip ASCII whitespace, then decode 4-character blocks. -/
def atobChars (cs : List Char) : Option (List Nat) :=
  atobBlocks (cs.filter (fun c => !isB64Space c))

/-- One global single-character replacement (`String.replace` with a
one-character regex acts independently on every character). -/
def chRep (a b c : Char) : Char := if c = a then b else c

/-- `uint8ArrayToBase64Url`: `btoa`, then `+`→`-`, `/`→`_`, and `=` stripped. -/
def uint8ArrayToBase64Url (bytes : List Nat) : String :=
  ((((btoaChars bytes).map (chRep '+' '-')).map (chRep '/' '_')).filter
    (fun c => c ≠ '=')).asString

/-- The `while (length % 4) base64 += '='` re-padding loop: appends `=` until
the length is a multiple of 4, i.e. `(4 - len % 4) % 4` of them. -/
def padEq (cs : List Char) : List Char :=
  cs ++ List.replicate ((4 - cs.length % 4) % 4) '='

/-- `base64UrlToUint8Array`: `-`→`+`, `_`→`/`, re-pad, then `atob`. -/
def base64UrlToUint8Array (s : String) : Option (List Nat) :=
  atobChars (padEq ((s.data.map (chRep '-' '+')).map (chRep '_' '/')))

/-! ### Round-trip of the base64 layer (claim C9) -/

/-- Facts about every sextet character, checked by evaluation: decoding
inverts encoding, the character is not `=`, it is unchanged by the url-safe
replacement chain followed by its inverse, the url-safe replacement does
not produce `=`, and the character is not ASCII whitespace. -/
theorem b64CharFacts : ∀ v < 64,
    b64Dec (b64Enc v) = some v ∧
    b64Enc v ≠ '=' ∧
    chRep '_' '/' (chRep '-' '+' (chRep '/' '_' (chRep '+' '-' (b64Enc v)))) = b64Enc v ∧
    chRep '/' '_' (chRep '+' '-' (b64Enc v)) ≠ '=' ∧
    isB64Space (b64Enc v) = false := by decide

theorem chRep_eq_fix : chRep '/' '_' (chRep '+' '-' '=') = '=' := by decide

theorem eq_not_space : isB64Space '=' = false := by decide

theorem padEq_cons4 (c1 c2 c3 c4 : Char) (cs : List Char) :
    padEq (c1 :: c2 :: c3 :: c4 :: cs) = c1 :: c2 :: c3 :: c4 :: padEq cs := by
  simp only [padEq, List.length_cons, List.cons_append]
  have : (4 - (cs.length + 1 + 1 + 1 + 1) % 4) % 4 = (4 - cs.length % 4) % 4 := by omega
  rw [this]

/-- Round-trip of the block phase: the mapped-and-filtered url string, mapped
back and re-padded, restores the exact `btoa` output; the block decode then
restores the bytes. -/
theorem atobBlocks_roundtrip (bytes : List Nat) (h : ∀ b ∈ bytes, b < 256) :
    atobBlocks (padEq (((((btoaChars bytes).map (chRep '+' '-')).map (chRep '/' '_')).filter
      (fun c => c ≠ '=')).map (chRep '-' '+') |>.map (chRep '_' '/'))) = some bytes := by
  induction bytes using btoaChars.induct with
  | case1 =>
      simp [btoaChars, padEq, atobBlocks]
  | case2 b1 =>
      have hb1 : b1 < 256 := h b1 (by simp)
      obtain ⟨d1, n1, r1, p1, w1⟩ := b64CharFacts (b1 / 4) (by omega)
      obtain ⟨d2, n2, r2, p2, w2⟩ := b64CharFacts (b1 % 4 * 16) (by omega)
      have e1 : b1 / 4 * 4 + b1 % 4 * 16 / 16 = b1 := by omega
      simp [btoaChars, chRep_eq_fix, p1, p2, r1, r2, padEq, List.replicate,
        atobBlocks, d1, d2, e1]
      omega
  | case3 b1 b2 =>
      have hb1 : b1 < 256 := h b1 (by simp)
      have hb2 : b2 < 256 := h b2 (by simp)
      obtain ⟨d1, n1, r1, p1, w1⟩ := b64CharFacts (b1 / 4) (by omega)
      obtain ⟨d2, n2, r2, p2, w2⟩ := b64CharFacts (b1 % 4 * 16 + b2 / 16) (by omega)
      obtain ⟨d3, n3, r3, p3, w3⟩ := b64CharFacts (b2 % 16 * 4) (by omega)
      have e1 : b1 / 4 * 4 + (b1 % 4 * 16 + b2 / 16) / 16 = b1 := by omega
      have e2 : (b1 % 4 * 16 + b2 / 16) % 16 * 16 + b2 % 16 * 4 / 4 = b2 := by omega
      simp [btoaChars, chRep_eq_fix, p1, p2, p3, r1, r2, r3, padEq, List.replicate,
        atobBlocks, d1, d2, d3, n3, e1, e2]
      omega
  | case4 b1 b2 b3 r ih =>
      have hb1 : b1 < 256 := h b1 (by simp)
      have hb2 : b2 < 256 := h b2 (by simp)
      have hb3 : b3 < 256 := h b3 (by simp)
      have hr : ∀ b ∈ r, b < 256 := fun b hb => h b (by simp [hb])
      obtain ⟨d1, n1, r1, p1, w1⟩ := b64CharFacts (b1 / 4) (by omega)
      obtain ⟨d2, n2, r2, p2, w2⟩ := b64CharFacts (b1 % 4 * 16 + b2 / 16) (by omega)
      obtain ⟨d3, n3, r3, p3, w3⟩ := b64CharFacts (b2 % 16 * 4 + b3 / 64) (by omega)
      obtain ⟨d4, n4, r4, p4, w4⟩ := b64CharFacts (b3 % 64) (by omega)
      have e1 : b1 / 4 * 4 + (b1 % 4 * 16 + b2 / 16) / 16 = b1 := by omega
      have e2 : (b1 % 4 * 16 + b2 / 16) % 16 * 16 + (b2 % 16 * 4 + b3 / 64) / 4 = b2 := by omega
      have e3 : (b2 % 16 * 4 + b3 / 64) % 4 * 64 + b3 % 64 = b3 := by omega
      have ihr := ih hr
      simp only [ne_eq, decide_not] at ihr
      simp [btoaChars, p1, p2, p3, p4, r1, r2, r3, r4, padEq_cons4, atobBlocks,
        n3, n4, d1, d2, d3, d4, ihr, e1, e2, e3, -List.map_map]

/-- `chRep` preserves freedom from whitespace when the replacement character
is no whitespace. -/
theorem chRep_not_space (a b c : Char) (hb : isB64Space b = false)
    (hc : isB64Space c = false) : isB64Space (chRep a b c) = false := by
  unfold chRep
  split <;> assumption

/-- No sextet character is ASCII whitespace (out-of-range sextets render the
fallback `?`, which is no whitespace either). -/
theorem b64Enc_not_space (v : Nat) : isB64Space (b64Enc v) = false := by
  by_cases h : v < 64
  · exact (b64CharFacts v h).2.2.2.2
  · have hlen : b64Chars.length ≤ v := by
      have h64 : b64Chars.length = 64 := by decide
      omega
    unfold b64Enc
    rw [List.getD_eq_default _ _ hlen]
    decide

/-- `btoa` output contains no ASCII whitespace. -/
theorem btoaChars_not_space (bytes : List Nat) :
    ∀ c ∈ btoaChars bytes, isB64Space c = false := by
  induction bytes using btoaChars.induct with
  | case1 => simp [btoaChars]
  | case2 b1 =>
      intro c hc
      simp only [btoaChars, List.mem_cons, List.not_mem_nil, or_false] at hc
      rcases hc with rfl | rfl | rfl | rfl
      · exact b64Enc_not_space _
      · exact b64Enc_not_space _
      · decide
      · decide
  | case3 b1 b2 =>
      intro c hc
      simp only [btoaChars, List.mem_cons, List.not_mem_nil, or_false] at hc
      rcases hc with rfl | rfl | rfl | rfl
      · exact b64Enc_not_space _
      · exact b64Enc_not_space _
      · exact b64Enc_not_space _
      · decide
  | case4 b1 b2 b3 r ih =>
      intro c hc
      simp only [btoaChars, List.mem_cons] at hc
      rcases hc with rfl | rfl | rfl | rfl | hc
      · exact b64Enc_not_space _
      · exact b64Enc_not_space _
      · exact b64Enc_not_space _
      · exact b64Enc_not_space _
      · exact ih c hc

/-- Mapping a whitespace-free replacement over a whitespace-free list keeps
it whitespace-free. -/
theorem map_chRep_not_space (a b : Char) (hb : isB64Space b = false) (l : List Char)
    (h : ∀ c ∈ l, isB64Space c = false) :
    ∀ c ∈ l.map (chRep a b), isB64Space c = false := by
  intro c hc
  obtain ⟨c0, hc0, rfl⟩ := List.mem_map.1 hc
  exact chRep_not_space a b c0 hb (h c0 hc0)

/-- Filtering keeps a list whitespace-free. -/
theorem filter_not_space (p : Char → Bool) (l : List Char)
    (h : ∀ c ∈ l, isB64Space c = false) :
    ∀ c ∈ l.filter p, isB64Space c = false :=
  fun c hc => h c (List.mem_filter.1 hc).1

/-- Re-padding with `=` keeps a list whitespace-free. -/
theorem padEq_not_space (l : List Char) (h : ∀ c ∈ l, isB64Space c = false) :
    ∀ c ∈ padEq l, isB64Space c = false := by
  intro c hc
  rw [padEq, List.mem_append] at hc
  rcases hc with hc | hc
  · exact h c hc
  · rw [List.eq_of_mem_replicate hc]
    decide

/-- On whitespace-free input the whitespace strip of `atob` is the identity. -/
theorem atobChars_of_no_space (l : List Char) (h : ∀ c ∈ l, isB64Space c = false) :
    atobChars l = atobBlocks l := by
  unfold atobChars
  congr 1
  apply List.filter_eq_self.2
  intro c hc
  simp [h c hc]

/-- The mapped-and-filtered url string, mapped back and re-padded, restores the
exact `btoa` output; `atob` then restores the bytes (its whitespace strip never
fires: the encoder emits no whitespace). -/
theorem atob_roundtrip (bytes : List Nat) (h : ∀ b ∈ bytes, b < 256) :
    atobChars (padEq (((((btoaChars bytes).map (chRep '+' '-')).map (chRep '/' '_')).filter
      (fun c => c ≠ '=')).map (chRep '-' '+') |>.map (chRep '_' '/'))) = some bytes := by
  rw [atobChars_of_no_space _ (padEq_not_space _
    (map_chRep_not_space '_' '/' (by decide) _
      (map_chRep_not_space '-' '+' (by decide) _
        (filter_not_space _ _
          (map_chRep_not_space '/' '_' (by decide) _
            (map_chRep_not_space '+' '-' (by decide) _
              (btoaChars_not_space bytes)))))))]
  exact atobBlocks_roundtrip bytes h

theorem asString_data (cs : List Char) : (List.asString cs).data = cs := rfl

/-- C9: decoding the URL-safe base64 string produced by encoding any byte
array returns exactly that byte array: the encoder maps `+` to `-`, `/` to `_`
and strips `=` padding, and the decoder re-pads to a multiple of 4 before the
inverse base64 transform. -/
theorem base64url_roundtrip (bytes : List Nat) (h : ∀ b ∈ bytes, b < 256) :
    base64UrlToUint8Array (uint8ArrayToBase64Url bytes) = some bytes := by
  unfold base64UrlToUint8Array uint8ArrayToBase64Url
  rw [asString_data]
  exact atob_roundtrip bytes h

theorem base64url_roundtrip_witness :
    (∀ b ∈ [0, 77, 128, 255, 10], b < 256) ∧
      base64UrlToUint8Array (uint8ArrayToBase64Url [0, 77, 128, 255, 10]) =
        some [0, 77, 128, 255, 10] :=
  ⟨by decide, base64url_roundtrip [0, 77, 128, 255, 10] (by decide)⟩

/-! ## Standings aggregator (`calculateStandings`)

The JavaScript `stats` accumulator is an object keyed by the numeric player
id.  `Object.values` enumerates own keys that are array indices (canonical
integers up to `2^32 - 2`) first, in ascending order, and all remaining keys
after them in insertion order.  The object is modelled as an association list
kept in that enumeration order — an ascending array-index segment followed by
an insertion-ordered segment of larger keys; `statsInsert` is keyed
assignment (`acc[player.id] = ...`), which overwrites an existing key in
place, sorts a new array-index key into the front segment, and appends a new
larger key (a `Date.now()` id, for instance) at the end.

The match loop mutates entry objects fetched by id.  An entry referenced by
`k` of a match's four participant slots receives `k` increments, and a missing
entry (`if (s)` / `if (t1p1Stats && t1p2Stats)` guards) receives none; the
per-entry translation below counts each entry's occurrences among the slots
(`occ2`) and mirrors the guards (`t1ok`, `t2ok` for the pairwise points
guards; the per-slot guards for matches-played and win/loss are automatic
because an entry only counts slots naming its own id). -/

/-- The zero-initialised entry the `reduce` initialiser builds per player. -/
def zeroEntry (p : Player) : StandingsEntry :=
  { playerId := p.id, playerName := p.name, wins := 0, losses := 0,
    pointsFor := 0, pointsAgainst := 0, pointDifferential := 0, matchesPlayed := 0 }

/-- The largest array-index key of a JavaScript object: `2^32 - 2`. -/
def arrayIdxMax : Nat := 4294967294

/-- Keyed assignment into the object model, in `Object.values` enumeration
order: an existing key is overwritten in place; a new array-index key
(`≤ arrayIdxMax`) enters at its ascending position in the leading array-index
segment (before every larger key); a new larger key is appended at the end. -/
def statsInsert (e : StandingsEntry) : List StandingsEntry → List StandingsEntry
  | [] => [e]
  | x :: xs =>
      if e.playerId = x.playerId then e :: xs
      else if e.playerId ≤ arrayIdxMax ∧
          (arrayIdxMax < x.playerId ∨ e.playerId < x.playerId) then e :: x :: xs
      else x :: statsInsert e xs

/-- `players.reduce((acc, player) => { acc[player.id] = {...}; return acc }, {})`. -/
def initStats (players : List Player) : List StandingsEntry :=
  players.foldl (fun acc p => statsInsert (zeroEntry p) acc) []

/-- How many of the two slots `a`, `b` name the id `pid`. -/
def occ2 (pid a b : Nat) : Nat :=
  (if pid = a then 1 else 0) + (if pid = b then 1 else 0)

/-- One iteration of `matches.filter(m => m.completed).forEach(...)`. -/
def applyMatch (stats : List StandingsEntry) (m : Match) : List StandingsEntry :=
  let s1 : Int := m.score1.getD 0
  let s2 : Int := m.score2.getD 0
  let t1a := m.team1.player1.id
  let t1b := m.team1.player2.id
  let t2a := m.team2.player1.id
  let t2b := m.team2.player2.id
  let keys := stats.map (fun e => e.playerId)
  let t1ok := t1a ∈ keys ∧ t1b ∈ keys
  let t2ok := t2a ∈ keys ∧ t2b ∈ keys
  stats.map fun e =>
    let o1 := occ2 e.playerId t1a t1b
    let o2 := occ2 e.playerId t2a t2b
    { e with
      matchesPlayed := e.matchesPlayed + o1 + o2
      pointsFor := e.pointsFor + (if t1ok then s1 * o1 else 0) + (if t2ok then s2 * o2 else 0)
      pointsAgainst := e.pointsAgainst + (if t1ok then s2 * o1 else 0) + (if t2ok then s1 * o2 else 0)
      wins := e.wins + (if s1 > s2 then o1 else 0) + (if s2 > s1 then o2 else 0)
      losses := e.losses + (if s1 > s2 then o2 else 0) + (if s2 > s1 then o1 else 0) }

/-- The whole filtered `forEach` over the initialised accumulator. -/
def foldStats (players : List Player) (ms : List Match) : List StandingsEntry :=
  (ms.filter (fun m => m.completed)).foldl applyMatch (initStats players)

/-- The comparator passed to `.sort`. -/
def standingsCmp (a b : StandingsEntry) : Int :=
  if b.wins ≠ a.wins then (b.wins : Int) - (a.wins : Int)
  else if b.pointDifferential ≠ a.pointDifferential then
    b.pointDifferential - a.pointDifferential
  else if b.pointsFor ≠ a.pointsFor then b.pointsFor - a.pointsFor
  else (a.losses : Int) - (b.losses : Int)

/-- `a` may stay before `b` under the comparator. -/
def standingsLE (a b : StandingsEntry) : Bool := standingsCmp a b ≤ 0

/-- Stable insertion step: the element being inserted comes from earlier in
the input, so it passes an element already placed only when it must
(`Array.prototype.sort` is stable per ES2019). -/
def sortIns (le : α → α → Bool) (a : α) : List α → List α
  | [] => [a]
  | b :: l => if le a b then a :: b :: l else b :: sortIns le a l

/-- A stable comparator sort (insertion sort). -/
def stableSort (le : α → α → Bool) : List α → List α
  | [] => []
  | a :: l => sortIns le a (stableSort le l)

/-- `calculateStandings`: zero-init per player, fold the completed matches,
recompute the differential, sort with the comparator. -/
def calculateStandings : Option Tournament → List StandingsEntry
  | none => []
  | some t =>
      stableSort standingsLE
        ((foldStats t.players t.matches').map
          (fun e => { e with pointDifferential := e.pointsFor - e.pointsAgainst }))

/-! ### Sort machinery: the insertion sort is a stable comparator sort -/

theorem sortIns_perm (le : α → α → Bool) (a : α) :
    ∀ l : List α, (sortIns le a l).Perm (a :: l)
  | [] => List.Perm.refl _
  | b :: l => by
      unfold sortIns
      split
      · exact List.Perm.refl _
      · exact ((sortIns_perm le a l).cons b).trans (List.Perm.swap a b l)

theorem stableSort_perm (le : α → α → Bool) : ∀ l : List α, (stableSort le l).Perm l
  | [] => List.Perm.refl _
  | a :: l => (sortIns_perm le a (stableSort le l)).trans ((stableSort_perm le l).cons a)

theorem sortIns_pairwise (le : α → α → Bool) (p : α → α → Prop)
    (htot : ∀ a b, le a b = true ∨ le b a = true)
    (htrans : ∀ a b c, le a b = true → le b c = true → le a c = true)
    (a : α) :
    ∀ l : List α,
      l.Pairwise (fun x y => le x y = true ∧ (le y x = true → p x y)) →
      (∀ b ∈ l, p a b) →
      (sortIns le a l).Pairwise (fun x y => le x y = true ∧ (le y x = true → p x y))
  | [], _, _ => by simp [sortIns]
  | b :: l, hl, ha => by
      unfold sortIns
      rcases List.pairwise_cons.1 hl with ⟨hb, hl'⟩
      split
      · next hab =>
          refine List.pairwise_cons.2 ⟨?_, hl⟩
          intro x hx
          rcases List.mem_cons.1 hx with rfl | hx
          · exact ⟨hab, fun _ => ha x (by simp)⟩
          · exact ⟨htrans a b x hab (hb x hx).1, fun _ => ha x (by simp [hx])⟩
      · next hab =>
          have hab' : le a b = false := by simpa using hab
          refine List.pairwise_cons.2 ⟨?_, ?_⟩
          · intro x hx
            have hx' := (sortIns_perm le a l).mem_iff.1 hx
            rcases List.mem_cons.1 hx' with hxa | hx'
            · rw [hxa]
              rcases htot a b with h | h
              · simp [h] at hab'
              · exact ⟨h, fun hba => by simp [hba] at hab'⟩
            · exact hb x hx'
          · exact sortIns_pairwise le p htot htrans a l hl' (fun x hx => ha x (by simp [hx]))

theorem stableSort_pairwise (le : α → α → Bool) (p : α → α → Prop)
    (htot : ∀ a b, le a b = true ∨ le b a = true)
    (htrans : ∀ a b c, le a b = true → le b c = true → le a c = true) :
    ∀ l : List α, l.Pairwise p →
      (stableSort le l).Pairwise (fun x y => le x y = true ∧ (le y x = true → p x y))
  | [], _ => by simp [stableSort]
  | a :: l, hp => by
      unfold stableSort
      rcases List.pairwise_cons.1 hp with ⟨hpa, hp'⟩
      exact sortIns_pairwise le p htot htrans a _
        (stableSort_pairwise le p htot htrans l hp')
        (fun b hb => hpa b ((stableSort_perm le l).mem_iff.1 hb))

/-! ### The comparator is a total preorder -/

theorem standingsLE_iff (a b : StandingsEntry) : standingsLE a b = true ↔
    b.wins < a.wins ∨ (b.wins = a.wins ∧ (b.pointDifferential < a.pointDifferential ∨
      (b.pointDifferential = a.pointDifferential ∧ (b.pointsFor < a.pointsFor ∨
        (b.pointsFor = a.pointsFor ∧ a.losses ≤ b.losses))))) := by
  simp only [standingsLE, standingsCmp, decide_eq_true_eq]
  split_ifs with h1 h2 h3 <;> omega

theorem standingsLE_total (a b : StandingsEntry) :
    standingsLE a b = true ∨ standingsLE b a = true := by
  rw [standingsLE_iff, standingsLE_iff]
  omega

theorem standingsLE_trans (a b c : StandingsEntry) :
    standingsLE a b = true → standingsLE b c = true → standingsLE a c = true := by
  rw [standingsLE_iff, standingsLE_iff, standingsLE_iff]
  omega

/-! ### The accumulator's values are in strictly ascending id order -/

theorem statsInsert_mem (e : StandingsEntry) :
    ∀ l : List StandingsEntry, ∀ x ∈ statsInsert e l, x = e ∨ x ∈ l
  | [], x, hx => by simpa [statsInsert] using hx
  | b :: l, x, hx => by
      unfold statsInsert at hx
      split at hx
      · rcases List.mem_cons.1 hx with h | h
        · exact Or.inl h
        · exact Or.inr (List.mem_cons.2 (Or.inr h))
      · split at hx
        · rcases List.mem_cons.1 hx with h | h
          · exact Or.inl h
          · exact Or.inr h
        · rcases List.mem_cons.1 hx with h | h
          · exact Or.inr (List.mem_cons.2 (Or.inl h))
          · rcases statsInsert_mem e l x h with h' | h'
            · exact Or.inl h'
            · exact Or.inr (List.mem_cons.2 (Or.inr h'))

/-- On an all-array-index accumulator, assignment of an array-index key keeps
the values strictly ascending by id. -/
theorem statsInsert_sorted_small (e : StandingsEntry) (he : e.playerId ≤ arrayIdxMax) :
    ∀ l : List StandingsEntry,
      (∀ x ∈ l, x.playerId ≤ arrayIdxMax) →
      l.Pairwise (fun a b => a.playerId < b.playerId) →
      (statsInsert e l).Pairwise (fun a b => a.playerId < b.playerId)
  | [], _, _ => by simp [statsInsert]
  | b :: l, hsm, hl => by
      rcases List.pairwise_cons.1 hl with ⟨hb, hl'⟩
      unfold statsInsert
      split
      · next heq =>
          exact List.pairwise_cons.2 ⟨fun x hx => heq ▸ hb x hx, hl'⟩
      · next hne =>
          split
          · next hcond =>
              have hbm : b.playerId ≤ arrayIdxMax := hsm b (by simp)
              have hlt : e.playerId < b.playerId := by omega
              refine List.pairwise_cons.2 ⟨?_, hl⟩
              intro x hx
              rcases List.mem_cons.1 hx with rfl | hx
              · exact hlt
              · exact lt_trans hlt (hb x hx)
          · next hcond =>
              have hbm : b.playerId ≤ arrayIdxMax := hsm b (by simp)
              refine List.pairwise_cons.2 ⟨?_, statsInsert_sorted_small e he l
                (fun x hx => hsm x (by simp [hx])) hl'⟩
              intro x hx
              rcases statsInsert_mem e l x hx with rfl | hx
              · omega
              · exact hb x hx

/-- On an all-array-index roster the initialised accumulator is strictly
ascending by id. -/
theorem initStats_sorted_small (players : List Player)
    (hsm : ∀ p ∈ players, p.id ≤ arrayIdxMax) :
    (initStats players).Pairwise (fun a b => a.playerId < b.playerId) := by
  have h : ∀ ps : List Player, ∀ acc : List StandingsEntry,
      (∀ p ∈ ps, p.id ≤ arrayIdxMax) →
      (∀ x ∈ acc, x.playerId ≤ arrayIdxMax) →
      acc.Pairwise (fun a b => a.playerId < b.playerId) →
      (ps.foldl (fun acc p => statsInsert (zeroEntry p) acc) acc).Pairwise
        (fun a b => a.playerId < b.playerId) := by
    intro ps
    induction ps with
    | nil => intro acc _ _ hacc; simpa using hacc
    | cons p ps ih =>
        intro acc hps haccm hacc
        refine ih _ (fun q hq => hps q (by simp [hq])) ?_
          (statsInsert_sorted_small _ (hps p (by simp)) acc haccm hacc)
        intro x hx
        rcases statsInsert_mem _ acc x hx with rfl | hx
        · exact hps p (by simp)
        · exact haccm x hx
  exact h players [] hsm (by simp) (by simp)

/-- Assignment of a fresh key larger than every array index appends at the
end, whatever the accumulator holds. -/
theorem statsInsert_append (e : StandingsEntry) (he : arrayIdxMax < e.playerId) :
    ∀ l : List StandingsEntry, e.playerId ∉ l.map (fun x => x.playerId) →
      statsInsert e l = l ++ [e]
  | [], _ => rfl
  | b :: l, hn => by
      simp only [List.map_cons, List.mem_cons, not_or] at hn
      unfold statsInsert
      rw [if_neg hn.1, if_neg (by omega), statsInsert_append e he l hn.2]
      rfl

/-- On an all-large-id roster with distinct ids (the `Date.now()` shape) the
initialised accumulator lists the zero entries in roster order. -/
theorem initStats_large (players : List Player)
    (hlg : ∀ p ∈ players, arrayIdxMax < p.id)
    (hnd : (players.map (fun p => p.id)).Nodup) :
    initStats players = players.map zeroEntry := by
  have h : ∀ ps : List Player, ∀ acc : List StandingsEntry,
      (∀ p ∈ ps, arrayIdxMax < p.id) →
      (ps.map (fun p => p.id)).Nodup →
      (∀ p ∈ ps, p.id ∉ acc.map (fun x => x.playerId)) →
      ps.foldl (fun acc p => statsInsert (zeroEntry p) acc) acc =
        acc ++ ps.map zeroEntry := by
    intro ps
    induction ps with
    | nil => intro acc _ _ _; simp
    | cons p ps ih =>
        intro acc hlg hnd hnin
        have hstep : statsInsert (zeroEntry p) acc = acc ++ [zeroEntry p] :=
          statsInsert_append (zeroEntry p) (hlg p (by simp)) acc (hnin p (by simp))
        have hrest : ps.foldl (fun acc p => statsInsert (zeroEntry p) acc)
            (acc ++ [zeroEntry p]) = (acc ++ [zeroEntry p]) ++ ps.map zeroEntry := by
          refine ih (acc ++ [zeroEntry p]) (fun q hq => hlg q (by simp [hq])) ?_ ?_
          · simp only [List.map_cons, List.nodup_cons] at hnd
            exact hnd.2
          · intro q hq
            have h2 : p.id ∉ ps.map (fun p => p.id) := by
              simp only [List.map_cons, List.nodup_cons] at hnd
              exact hnd.1
            have h3 : q.id ≠ p.id := fun hqp => h2 (hqp ▸ List.mem_map_of_mem _ hq)
            simp only [List.map_append, List.mem_append, List.map_cons, List.map_nil,
              not_or]
            exact ⟨hnin q (by simp [hq]), by simpa [zeroEntry] using h3⟩
        rw [List.foldl_cons, hstep, hrest]
        simp
  exact h players [] hlg hnd (by simp)

theorem applyMatch_ids (stats : List StandingsEntry) (m : Match) :
    (applyMatch stats m).map (fun e => e.playerId) = stats.map (fun e => e.playerId) := by
  simp [applyMatch, List.map_map]

theorem foldl_applyMatch_ids :
    ∀ (l : List Match) (acc : List StandingsEntry),
      ((l.foldl applyMatch acc).map fun e => e.playerId) = acc.map fun e => e.playerId
  | [], _ => rfl
  | m :: l, acc => by
      rw [List.foldl_cons, foldl_applyMatch_ids l (applyMatch acc m), applyMatch_ids]

theorem foldStats_ids (players : List Player) (ms : List Match) :
    (foldStats players ms).map (fun e => e.playerId) =
      (initStats players).map (fun e => e.playerId) := by
  unfold foldStats
  exact foldl_applyMatch_ids _ _

/-- For an all-array-index roster the list handed to `.sort` has strictly
ascending player ids. -/
theorem preSort_sorted_small (t : Tournament)
    (hsm : ∀ p ∈ t.players, p.id ≤ arrayIdxMax) :
    ((foldStats t.players t.matches').map
        (fun e => { e with pointDifferential := e.pointsFor - e.pointsAgainst })).Pairwise
      (fun a b => a.playerId < b.playerId) := by
  have h1 : (((foldStats t.players t.matches').map
      (fun e => { e with pointDifferential := e.pointsFor - e.pointsAgainst })).map
        (fun e => e.playerId)).Pairwise (· < ·) := by
    rw [List.map_map]
    have : ((foldStats t.players t.matches').map
        (fun e => e.playerId)).Pairwise (· < ·) := by
      rw [foldStats_ids]
      exact (List.pairwise_map).2 (initStats_sorted_small t.players hsm)
    simpa [Function.comp] using this
  exact (List.pairwise_map).1 h1

/-- For an all-large-id roster with distinct ids the list handed to `.sort`
carries the roster's ids in roster order. -/
theorem preSort_ids_large (t : Tournament)
    (hlg : ∀ p ∈ t.players, arrayIdxMax < p.id)
    (hnd : (t.players.map (fun p => p.id)).Nodup) :
    ((foldStats t.players t.matches').map
        (fun e => { e with pointDifferential := e.pointsFor - e.pointsAgainst })).map
      (fun e => e.playerId) = t.players.map (fun p => p.id) := by
  have h1 : ((foldStats t.players t.matches').map
      (fun e => { e with pointDifferential := e.pointsFor - e.pointsAgainst })).map
        (fun e => e.playerId) =
      (foldStats t.players t.matches').map (fun e => e.playerId) := by
    rw [List.map_map]
    rfl
  rw [h1, foldStats_ids, initStats_large t.players hlg hnd, List.map_map]
  rfl

/-- Every list is trivially pairwise related by the full relation. -/
theorem pairwise_trivial (l : List α) : l.Pairwise (fun _ _ => True) := by
  induction l with
  | nil => exact List.Pairwise.nil
  | cons a l ih => exact List.pairwise_cons.2 ⟨fun _ _ => trivial, ih⟩

/-! ### Claim C4: sort order of the standings -/

/-- Entry with 2 wins and differential 5, first in input order. -/
def entW2d5 : StandingsEntry := ⟨0, "P", 2, 0, 5, 0, 5, 0⟩

/-- Entry with 2 wins and differential 10, second in input order. -/
def entW2d10 : StandingsEntry := ⟨1, "Q", 2, 0, 10, 0, 10, 0⟩

/-- Entry with 1 win and differential 99, third in input order. -/
def entW1d99 : StandingsEntry := ⟨2, "R", 1, 0, 99, 0, 99, 0⟩

/-- Two-player roster of `Date.now()`-sized ids listed in descending order:
ids above `2^32 - 2` are no array indices, so `Object.values` keeps their
insertion order and all-tied standings come out in roster order. -/
def largeIdT : Tournament :=
  ⟨"t1", "T", "now", [⟨5000000001, "A"⟩, ⟨5000000000, "B"⟩], [], none, none⟩

/-- C4 (amended): the standings are pairwise ordered by the comparator
(descending wins, then descending differential, then descending points-for,
then ascending losses); entries tied on all four criteria keep the
`Object.values` enumeration order of the id-keyed stats object — ids that are
array indices (at most `2^32 - 2`) come first in ascending id order, larger
ids (such as `Date.now()` ids) follow in roster insertion order.  Hence ties
are in ascending id order when every roster id is an array index, and in
roster order when every roster id is larger (the reference creation flow);
wins strictly dominate the differential, as the [2,2,1]/[5,10,99] example
shows, and the descending large-id roster keeps roster order. -/
theorem standings_sort_order :
    (∀ ot : Option Tournament,
      (calculateStandings ot).Pairwise (fun a b => standingsLE a b = true)) ∧
    (∀ t : Tournament, (∀ p ∈ t.players, p.id ≤ arrayIdxMax) →
      (calculateStandings (some t)).Pairwise (fun a b =>
        standingsLE a b = true ∧ (standingsLE b a = true → a.playerId < b.playerId))) ∧
    (∀ t : Tournament, (∀ p ∈ t.players, arrayIdxMax < p.id) →
      (t.players.map (fun p => p.id)).Nodup →
      (calculateStandings (some t)).Pairwise (fun a b =>
        standingsLE a b = true ∧ (standingsLE b a = true →
          ∃ i j, i < j ∧ j < t.players.length ∧
            (t.players.getD i default).id = a.playerId ∧
            (t.players.getD j default).id = b.playerId))) ∧
    stableSort standingsLE [entW2d5, entW2d10, entW1d99] = [entW2d10, entW2d5, entW1d99] ∧
    (calculateStandings (some largeIdT)).map (fun e => e.playerName) = ["A", "B"] := by
  refine ⟨?_, ?_, ?_, by decide, by decide⟩
  · intro ot
    match ot with
    | none => simp [calculateStandings]
    | some t =>
        exact (stableSort_pairwise standingsLE (fun _ _ => True)
          standingsLE_total standingsLE_trans _ (pairwise_trivial _)).imp (fun h => h.1)
  · intro t hsm
    exact stableSort_pairwise standingsLE (fun a b => a.playerId < b.playerId)
      standingsLE_total standingsLE_trans _ (preSort_sorted_small t hsm)
  · intro t hlg hnd
    have hq : (((foldStats t.players t.matches').map
        (fun e => { e with pointDifferential := e.pointsFor - e.pointsAgainst })).map
          (fun e => e.playerId)).Pairwise (fun x y =>
            ∃ i j, i < j ∧ j < t.players.length ∧
              (t.players.getD i default).id = x ∧ (t.players.getD j default).id = y) := by
      rw [preSort_ids_large t hlg hnd]
      refine (List.pairwise_iff_getElem).2 ?_
      intro i j hi hj hij
      have hi' : i < t.players.length := by simpa using hi
      have hj' : j < t.players.length := by simpa using hj
      refine ⟨i, j, hij, hj', ?_, ?_⟩
      · rw [List.getD_eq_getElem _ _ hi']
        simp
      · rw [List.getD_eq_getElem _ _ hj']
        simp
    exact stableSort_pairwise standingsLE _ standingsLE_total standingsLE_trans _
      ((List.pairwise_map).1 hq)

/-- Counterexample to C4 as stated: a roster of array-index ids (0 and 1)
listed in descending id order.  All four criteria tie (no matches), yet the
output is in ascending id order `["B", "A"]`, not roster order `["A", "B"]`. -/
def rosterOrderCexT : Tournament := ⟨"t0", "T", "now", [⟨1, "A"⟩, ⟨0, "B"⟩], [], none, none⟩

theorem standings_roster_order_cex :
    rosterOrderCexT.players.map (fun p => p.name) = ["A", "B"] ∧
    (calculateStandings (some rosterOrderCexT)).map (fun e => e.playerName) = ["B", "A"] ∧
    ∀ e ∈ calculateStandings (some rosterOrderCexT),
      e.wins = 0 ∧ e.losses = 0 ∧ e.pointDifferential = 0 ∧ e.pointsFor = 0 := by
  refine ⟨rfl, rfl, ?_⟩
  decide

/-- Witness: the two tie-order clauses applied at concrete rosters — the
array-index roster of the counterexample and the descending large-id one. -/
theorem standings_sort_order_witness :
    (∀ p ∈ rosterOrderCexT.players, p.id ≤ arrayIdxMax) ∧
    (∀ p ∈ largeIdT.players, arrayIdxMax < p.id) ∧
    (largeIdT.players.map (fun p => p.id)).Nodup ∧
    (calculateStandings (some rosterOrderCexT)).Pairwise (fun a b =>
      standingsLE a b = true ∧ (standingsLE b a = true → a.playerId < b.playerId)) ∧
    (calculateStandings (some largeIdT)).Pairwise (fun a b =>
      standingsLE a b = true ∧ (standingsLE b a = true →
        ∃ i j, i < j ∧ j < largeIdT.players.length ∧
          (largeIdT.players.getD i default).id = a.playerId ∧
          (largeIdT.players.getD j default).id = b.playerId)) :=
  ⟨by decide, by decide, by decide,
   standings_sort_order.2.1 rosterOrderCexT (by decide),
   standings_sort_order.2.2.1 largeIdT (by decide) (by decide)⟩

/-! ### Claim C5: tie policy of the aggregator -/

/-- C5: folding one more completed match whose scores tie adds one
matches-played and both scores (equal, so the same value to points-for and
points-against) for all four distinct participants present in the
accumulator, and credits nobody with a win or a loss; everyone else is
untouched. -/
theorem aggregator_tie_policy (players : List Player) (ms : List Match) (m : Match)
    (hc : m.completed = true)
    (hs : m.score1.getD 0 = m.score2.getD 0)
    (hn1 : m.team1.player1.id ≠ m.team1.player2.id)
    (hn2 : m.team1.player1.id ≠ m.team2.player1.id)
    (hn3 : m.team1.player1.id ≠ m.team2.player2.id)
    (hn4 : m.team1.player2.id ≠ m.team2.player1.id)
    (hn5 : m.team1.player2.id ≠ m.team2.player2.id)
    (hn6 : m.team2.player1.id ≠ m.team2.player2.id)
    (hk : ∀ pid ∈ [m.team1.player1.id, m.team1.player2.id, m.team2.player1.id,
      m.team2.player2.id], pid ∈ (foldStats players ms).map (fun e => e.playerId)) :
    foldStats players (ms ++ [m]) = (foldStats players ms).map (fun e =>
      if e.playerId = m.team1.player1.id ∨ e.playerId = m.team1.player2.id ∨
          e.playerId = m.team2.player1.id ∨ e.playerId = m.team2.player2.id then
        { e with
          matchesPlayed := e.matchesPlayed + 1
          pointsFor := e.pointsFor + m.score1.getD 0
          pointsAgainst := e.pointsAgainst + m.score1.getD 0 }
      else e) := by
  have hstep : foldStats players (ms ++ [m]) = applyMatch (foldStats players ms) m := by
    unfold foldStats
    rw [List.filter_append, List.foldl_append]
    simp [hc]
  rw [hstep]
  have h1a := hk m.team1.player1.id (by simp)
  have h1b := hk m.team1.player2.id (by simp)
  have h2a := hk m.team2.player1.id (by simp)
  have h2b := hk m.team2.player2.id (by simp)
  have hlt1 : ¬(m.score1.getD 0 > m.score2.getD 0) := by omega
  have hlt2 : ¬(m.score2.getD 0 > m.score1.getD 0) := by omega
  unfold applyMatch
  simp only []
  apply List.map_congr_left
  intro e he
  by_cases e1 : e.playerId = m.team1.player1.id
  · have o1 : occ2 e.playerId m.team1.player1.id m.team1.player2.id = 1 := by
      simp [occ2, e1, hn1]
    have o2 : occ2 e.playerId m.team2.player1.id m.team2.player2.id = 0 := by
      simp [occ2, e1, hn2, hn3]
    rw [if_pos (Or.inl e1)]
    simp [h1a, h1b, h2a, h2b, o1, o2, hlt1, hlt2, hs]
  · by_cases e2 : e.playerId = m.team1.player2.id
    · have o1 : occ2 e.playerId m.team1.player1.id m.team1.player2.id = 1 := by
        simp [occ2, e2, hn1.symm, e1]
      have o2 : occ2 e.playerId m.team2.player1.id m.team2.player2.id = 0 := by
        simp [occ2, e2, hn4, hn5]
      rw [if_pos (Or.inr (Or.inl e2))]
      simp [h1a, h1b, h2a, h2b, o1, o2, hlt1, hlt2, hs]
    · by_cases e3 : e.playerId = m.team2.player1.id
      · have o1 : occ2 e.playerId m.team1.player1.id m.team1.player2.id = 0 := by
          simp [occ2, e1, e2]
        have o2 : occ2 e.playerId m.team2.player1.id m.team2.player2.id = 1 := by
          simp [occ2, e3, hn6]
        rw [if_pos (Or.inr (Or.inr (Or.inl e3)))]
        simp [h1a, h1b, h2a, h2b, o1, o2, hlt1, hlt2, hs]
      · by_cases e4 : e.playerId = m.team2.player2.id
        · have o1 : occ2 e.playerId m.team1.player1.id m.team1.player2.id = 0 := by
            simp [occ2, e1, e2]
          have o2 : occ2 e.playerId m.team2.player1.id m.team2.player2.id = 1 := by
            simp [occ2, e4, hn6.symm, e3]
          rw [if_pos (Or.inr (Or.inr (Or.inr e4)))]
          simp [h1a, h1b, h2a, h2b, o1, o2, hlt1, hlt2, hs]
        · have o1 : occ2 e.playerId m.team1.player1.id m.team1.player2.id = 0 := by
            simp [occ2, e1, e2]
          have o2 : occ2 e.playerId m.team2.player1.id m.team2.player2.id = 0 := by
            simp [occ2, e3, e4]
          simp [h1a, h1b, h2a, h2b, o1, o2, e1, e2, e3, e4]

/-- Concrete roster for the tie-policy witness. -/
def tieWPlayers : List Player := [⟨0, "A"⟩, ⟨1, "B"⟩, ⟨2, "C"⟩, ⟨3, "D"⟩]

/-- Concrete completed 7–7 match for the tie-policy witness. -/
def tieWMatch : Match :=
  ⟨"0-1-2-3", ⟨⟨0, "A"⟩, ⟨1, "B"⟩⟩, ⟨⟨2, "C"⟩, ⟨3, "D"⟩⟩, some 7, some 7, true⟩

theorem aggregator_tie_policy_witness :
    tieWMatch.completed = true ∧ tieWMatch.score1.getD 0 = tieWMatch.score2.getD 0 ∧
    foldStats tieWPlayers ([] ++ [tieWMatch]) =
      (foldStats tieWPlayers []).map (fun e =>
        if e.playerId = tieWMatch.team1.player1.id ∨ e.playerId = tieWMatch.team1.player2.id ∨
            e.playerId = tieWMatch.team2.player1.id ∨ e.playerId = tieWMatch.team2.player2.id then
          { e with
            matchesPlayed := e.matchesPlayed + 1
            pointsFor := e.pointsFor + tieWMatch.score1.getD 0
            pointsAgainst := e.pointsAgainst + tieWMatch.score1.getD 0 }
        else e) :=
  ⟨rfl, rfl,
    aggregator_tie_policy tieWPlayers [] tieWMatch rfl rfl (by decide) (by decide) (by decide)
      (by decide) (by decide) (by decide) (by decide)⟩

/-! ## Match generator (`handleCreateTournament`)

The four nested `for` loops enumerate index quadruples `i < j < k < l` over
the roster in lexicographic order and push one match per quadruple;
`combos4` is that enumeration (`tails2`/`tails3` are the two/three inner
loops), and `genMatches` builds the match each iteration pushes.  The
schedule is then shuffled in place by a Fisher-Yates loop whose random draw
at index `i` is `Math.floor(Math.random() * (i + 1))`, an arbitrary value in
`[0, i]`; the draws are a parameter `rs` (any run of the program corresponds
to some `rs`). -/

/-- The two innermost loops: pairs `a ≤ k < l < n`. -/
def tails2 (a n : Nat) : List (Nat × Nat) :=
  (List.range' a (n - a)).flatMap fun k =>
    (List.range' (k + 1) (n - (k + 1))).map fun l => (k, l)

/-- The three innermost loops: triples `a ≤ j < k < l < n`. -/
def tails3 (a n : Nat) : List (Nat × Nat × Nat) :=
  (List.range' a (n - a)).flatMap fun j => (tails2 (j + 1) n).map fun p => (j, p.1, p.2)

/-- All four loops: quadruples `i < j < k < l < n` in loop order. -/
def combos4 (n : Nat) : List (Nat × Nat × Nat × Nat) :=
  (List.range' 0 n).flatMap fun i => (tails3 (i + 1) n).map fun p => (i, p.1, p.2.1, p.2.2)

/-- The match id template literal: participant ids joined with dashes. -/
def matchIdStr (a b c d : Nat) : String :=
  Nat.repr a ++ "-" ++ Nat.repr b ++ "-" ++ Nat.repr c ++ "-" ++ Nat.repr d

/-- The match object pushed for one quadruple: team1 is the first two chosen
players, team2 the last two, scores null, not completed. -/
def mkMatch (p1 p2 p3 p4 : Player) : Match :=
  { id := matchIdStr p1.id p2.id p3.id p4.id
    team1 := ⟨p1, p2⟩
    team2 := ⟨p3, p4⟩
    score1 := none
    score2 := none
    completed := false }

/-- The loop nest of `handleCreateTournament` before the shuffle. -/
def genMatches (players : List Player) : List Match :=
  (combos4 players.length).map fun q =>
    mkMatch (players.getD q.1 default) (players.getD q.2.1 default)
      (players.getD q.2.2.1 default) (players.getD q.2.2.2 default)

/-- `[matches[i], matches[j]] = [matches[j], matches[i]]`. -/
def swapIdx (l : List α) (i j : Nat) : List α :=
  match l[i]?, l[j]? with
  | some x, some y => (l.set i y).set j x
  | _, _ => l

/-- The `for (let i = length - 1; i > 0; i--)` Fisher-Yates loop body, with
the draw at `i` being `rs i % (i + 1)` (an arbitrary element of `[0, i]`). -/
def fyLoop (rs : Nat → Nat) : Nat → List Match → List Match
  | 0, l => l
  | i + 1, l => fyLoop rs i (swapIdx l (i + 1) (rs (i + 1) % (i + 2)))

/-- The in-place shuffle of the generated schedule. -/
def shuffleMatches (rs : Nat → Nat) (l : List Match) : List Match :=
  fyLoop rs (l.length - 1) l

/-- Matches as stored on the new tournament: generated, then shuffled. -/
def createMatches (players : List Player) (rs : Nat → Nat) : List Match :=
  shuffleMatches rs (genMatches players)

/-! ### The shuffle is a permutation -/

theorem cons_set_perm :
    ∀ (t : List α) (k : Nat) (x y : α), t[k]? = some y → (y :: t.set k x).Perm (x :: t)
  | [], k, _, _, h => by simp at h
  | b :: t, 0, x, y, h => by
      have hb : b = y := by simpa using h
      subst hb
      rw [List.set_cons_zero]
      exact List.Perm.swap _ _ _
  | b :: t, k + 1, x, y, h => by
      have ht : t[k]? = some y := by simpa using h
      rw [List.set_cons_succ]
      exact (List.Perm.swap _ _ _).trans
        (((cons_set_perm t k x y ht).cons b).trans (List.Perm.swap _ _ _))

theorem set_set_perm :
    ∀ (l : List α) (i j : Nat) (x y : α), l[i]? = some x → l[j]? = some y →
      ((l.set i y).set j x).Perm l
  | [], i, _, _, _, hi, _ => by simp at hi
  | a :: t, 0, 0, x, y, hi, hj => by
      have hx : a = x := by simpa using hi
      rw [List.set_cons_zero, List.set_cons_zero, ← hx]
  | a :: t, 0, j + 1, x, y, hi, hj => by
      have hx : a = x := by simpa using hi
      have hy : t[j]? = some y := by simpa using hj
      rw [List.set_cons_zero, List.set_cons_succ, hx]
      exact cons_set_perm t j x y hy
  | a :: t, i + 1, 0, x, y, hi, hj => by
      have hy : a = y := by simpa using hj
      have hx : t[i]? = some x := by simpa using hi
      rw [List.set_cons_succ, List.set_cons_zero, hy]
      exact cons_set_perm t i y x hx
  | a :: t, i + 1, j + 1, x, y, hi, hj => by
      rw [List.set_cons_succ, List.set_cons_succ]
      exact (set_set_perm t i j x y (by simpa using hi) (by simpa using hj)).cons a

theorem swapIdx_perm (l : List α) (i j : Nat) : (swapIdx l i j).Perm l := by
  unfold swapIdx
  split
  · next x y hi hj => exact set_set_perm l i j x y hi hj
  · exact List.Perm.refl l

theorem fyLoop_perm (rs : Nat → Nat) : ∀ (i : Nat) (l : List Match), (fyLoop rs i l).Perm l
  | 0, l => List.Perm.refl l
  | i + 1, l =>
      (fyLoop_perm rs i (swapIdx l (i + 1) (rs (i + 1) % (i + 2)))).trans
        (swapIdx_perm l (i + 1) (rs (i + 1) % (i + 2)))

theorem createMatches_perm (players : List Player) (rs : Nat → Nat) :
    (createMatches players rs).Perm (genMatches players) :=
  fyLoop_perm rs _ _

/-! ### Counting: the loop nest yields `C(n, 4)` quadruples -/

theorem length_tails2 : ∀ (d a n : Nat), n - a = d → (tails2 a n).length = d.choose 2
  | 0, a, n, h => by simp [tails2, h]
  | d + 1, a, n, h => by
      have h2 : n - (a + 1) = d := by omega
      have ih := length_tails2 d (a + 1) n h2
      unfold tails2 at ih ⊢
      rw [h2] at ih
      rw [h, List.range'_succ, List.flatMap_cons, List.length_append, List.length_map,
        List.length_range', h2, ih]
      have hc : (d + 1).choose 2 = d.choose 1 + d.choose 2 := Nat.choose_succ_succ d 1
      rw [hc, Nat.choose_one_right]

theorem length_tails3 : ∀ (d a n : Nat), n - a = d → (tails3 a n).length = d.choose 3
  | 0, a, n, h => by simp [tails3, h]
  | d + 1, a, n, h => by
      have h2 : n - (a + 1) = d := by omega
      have ih := length_tails3 d (a + 1) n h2
      unfold tails3 at ih ⊢
      rw [h2] at ih
      rw [h, List.range'_succ, List.flatMap_cons, List.length_append, List.length_map,
        length_tails2 d (a + 1) n h2, ih]
      have hc : (d + 1).choose 3 = d.choose 2 + d.choose 3 := Nat.choose_succ_succ d 2
      rw [hc]

theorem length_combos4 : ∀ n : Nat, (combos4 n).length = n.choose 4 := by
  have key : ∀ (d a n : Nat), n - a = d →
      (((List.range' a (n - a)).flatMap fun i =>
        (tails3 (i + 1) n).map fun p => (i, p.1, p.2.1, p.2.2)).length) = d.choose 4 := by
    intro d
    induction d with
    | zero => intro a n h; simp [h]
    | succ d ih =>
        intro a n h
        have h2 : n - (a + 1) = d := by omega
        have ih' := ih (a + 1) n h2
        rw [h2] at ih'
        rw [h, List.range'_succ, List.flatMap_cons, List.length_append, List.length_map,
          length_tails3 d (a + 1) n h2, ih']
        have hc : (d + 1).choose 4 = d.choose 3 + d.choose 4 := Nat.choose_succ_succ d 3
        rw [hc]
  intro n
  unfold combos4
  have := key n 0 n (by omega)
  simpa using this

theorem length_genMatches (players : List Player) :
    (genMatches players).length = (players.length).choose 4 := by
  unfold genMatches
  rw [List.length_map, length_combos4]

/-! ### Membership and uniqueness of the enumeration -/

theorem mem_tails2 (a n k l : Nat) : (k, l) ∈ tails2 a n ↔ a ≤ k ∧ k < l ∧ l < n := by
  simp only [tails2, List.mem_flatMap, List.mem_map, List.mem_range'_1, Prod.mk.injEq]
  constructor
  · rintro ⟨k', hk', l', hl', rfl, rfl⟩
    omega
  · rintro ⟨h1, h2, h3⟩
    exact ⟨k, by omega, l, by omega, rfl, rfl⟩

theorem mem_tails3 (a n j k l : Nat) :
    (j, k, l) ∈ tails3 a n ↔ a ≤ j ∧ j < k ∧ k < l ∧ l < n := by
  simp only [tails3, List.mem_flatMap, List.mem_map, List.mem_range'_1, Prod.exists,
    mem_tails2, Prod.mk.injEq]
  constructor
  · rintro ⟨j', hj', k', l', hp, rfl, rfl, rfl⟩
    omega
  · rintro ⟨h1, h2, h3, h4⟩
    exact ⟨j, by omega, k, l, by omega, rfl, rfl, rfl⟩

theorem mem_combos4 (n i j k l : Nat) :
    (i, j, k, l) ∈ combos4 n ↔ i < j ∧ j < k ∧ k < l ∧ l < n := by
  simp only [combos4, List.mem_flatMap, List.mem_map, List.mem_range'_1, Prod.exists,
    mem_tails3, Prod.mk.injEq]
  constructor
  · rintro ⟨i', hi', j', k', l', hp, rfl, rfl, rfl, rfl⟩
    omega
  · rintro ⟨h1, h2, h3, h4⟩
    exact ⟨i, by omega, j, k, l, by omega, rfl, rfl, rfl, rfl⟩

theorem nodup_tails2 (a n : Nat) : (tails2 a n).Nodup := by
  unfold tails2
  rw [List.nodup_flatMap]
  refine ⟨fun k _ => ?_, ?_⟩
  · exact (List.nodup_range' _ _).map (fun x y h => by simpa using h)
  · refine List.Pairwise.imp ?_ (List.nodup_range' a (n - a))
    intro k k' hkk'
    simp only [List.disjoint_left, List.mem_map]
    rintro p ⟨l, _, rfl⟩ ⟨l', _, h⟩
    exact hkk' (by simpa using congrArg Prod.fst h.symm)

theorem nodup_tails3 (a n : Nat) : (tails3 a n).Nodup := by
  unfold tails3
  rw [List.nodup_flatMap]
  refine ⟨fun j _ => ?_, ?_⟩
  · exact (nodup_tails2 _ _).map (fun x y h => by
      rcases x with ⟨x1, x2⟩; rcases y with ⟨y1, y2⟩; simpa using h)
  · refine List.Pairwise.imp ?_ (List.nodup_range' a (n - a))
    intro j j' hjj'
    simp only [List.disjoint_left, List.mem_map]
    rintro p ⟨q, _, rfl⟩ ⟨q', _, h⟩
    exact hjj' (by simpa using congrArg Prod.fst h.symm)

theorem nodup_combos4 (n : Nat) : (combos4 n).Nodup := by
  unfold combos4
  rw [List.nodup_flatMap]
  refine ⟨fun i _ => ?_, ?_⟩
  · exact (nodup_tails3 _ _).map (fun x y h => by
      rcases x with ⟨x1, x2, x3⟩; rcases y with ⟨y1, y2, y3⟩; simpa using h)
  · refine List.Pairwise.imp ?_ (List.nodup_range' 0 n)
    intro i i' hii'
    simp only [List.disjoint_left, List.mem_map]
    rintro p ⟨q, _, rfl⟩ ⟨q', _, h⟩
    exact hii' (by simpa using congrArg Prod.fst h.symm)

theorem mem_genMatches (players : List Player) (m : Match) :
    m ∈ genMatches players ↔ ∃ i j k l, i < j ∧ j < k ∧ k < l ∧ l < players.length ∧
      m = mkMatch (players.getD i default) (players.getD j default)
        (players.getD k default) (players.getD l default) := by
  simp only [genMatches, List.mem_map, Prod.exists, mem_combos4]
  constructor
  · rintro ⟨i, j, k, l, hq, rfl⟩
    exact ⟨i, j, k, l, hq.1, hq.2.1, hq.2.2.1, hq.2.2.2, rfl⟩
  · rintro ⟨i, j, k, l, h1, h2, h3, h4, rfl⟩
    exact ⟨i, j, k, l, ⟨h1, h2, h3, h4⟩, rfl⟩

theorem countP_eq_one_of_unique :
    ∀ (l : List α) (p : α → Bool) (a : α), l.Nodup → a ∈ l → p a = true →
      (∀ b ∈ l, p b = true → b = a) → l.countP p = 1
  | [], _, _, _, ha, _, _ => by simp at ha
  | x :: l, p, a, hn, ha, hp, hu => by
      rw [List.countP_cons]
      rcases List.mem_cons.1 ha with rfl | ha'
      · have h0 : l.countP p = 0 := List.countP_eq_zero.2 (fun b hb hpb => by
          have := hu b (List.mem_cons.2 (Or.inr hb)) hpb
          subst this
          exact (List.nodup_cons.1 hn).1 hb)
        simp [h0, hp]
      · have hx : p x = false := by
          rcases hpx : p x with _ | _
          · rfl
          · have := hu x (List.mem_cons.2 (Or.inl rfl)) hpx
            subst this
            exact absurd ha' (List.nodup_cons.1 hn).1
        have h1 : l.countP p = 1 :=
          countP_eq_one_of_unique l p a (List.nodup_cons.1 hn).2 ha' hp
            (fun b hb hpb => hu b (List.mem_cons.2 (Or.inr hb)) hpb)
        simp [h1, hx]

/-- Distinct roster positions carry distinct ids when the roster ids are
pairwise distinct. -/
theorem ids_distinct (players : List Player)
    (hids : (players.map (fun p => p.id)).Nodup) (i j : Nat)
    (hi : i < players.length) (hj : j < players.length) (hij : i ≠ j) :
    (players.getD i default).id ≠ (players.getD j default).id := by
  rw [List.getD_eq_getElem players default hi, List.getD_eq_getElem players default hj]
  intro h
  have hmi : i < (players.map (fun p => p.id)).length := by simpa using hi
  have hmj : j < (players.map (fun p => p.id)).length := by simpa using hj
  have h' : (players.map (fun p => p.id))[i] = (players.map (fun p => p.id))[j] := by
    simpa using h
  exact hij ((List.Nodup.getElem_inj_iff hids).1 h')

/-- The unordered set of the four participant ids of a match. -/
def participantIds (m : Match) : Finset Nat :=
  {m.team1.player1.id, m.team1.player2.id, m.team2.player1.id, m.team2.player2.id}

theorem card4 {a b c d : Nat} (h1 : a ≠ b) (h2 : a ≠ c) (h3 : a ≠ d)
    (h4 : b ≠ c) (h5 : b ≠ d) (h6 : c ≠ d) : ({a, b, c, d} : Finset Nat).card = 4 := by
  rw [Finset.card_insert_of_not_mem (by simp [h1, h2, h3]),
    Finset.card_insert_of_not_mem (by simp [h4, h5]),
    Finset.card_insert_of_not_mem (by simp [h6]), Finset.card_singleton]

/-- C3: generation produces exactly `C(N, 4)` matches (zero when `N < 4`),
each match references four distinct players, and every unordered 4-subset of
the roster is covered by exactly one match — all stable under the shuffle. -/
theorem generator_count_and_coverage (players : List Player) (rs : Nat → Nat)
    (hids : (players.map (fun p => p.id)).Nodup) :
    (createMatches players rs).length = (players.length).choose 4 ∧
    (players.length < 4 → createMatches players rs = []) ∧
    (∀ m ∈ createMatches players rs, (participantIds m).card = 4) ∧
    (∀ i j k l, i < j → j < k → k < l → l < players.length →
      (createMatches players rs).countP (fun m => participantIds m =
        ({(players.getD i default).id, (players.getD j default).id,
          (players.getD k default).id, (players.getD l default).id} : Finset Nat)) = 1) := by
  refine ⟨?_, ?_, ?_, ?_⟩
  · rw [(createMatches_perm players rs).length_eq, length_genMatches]
  · intro hlt
    have h0 : (createMatches players rs).length = 0 := by
      rw [(createMatches_perm players rs).length_eq, length_genMatches]
      exact Nat.choose_eq_zero_of_lt hlt
    exact List.length_eq_zero.1 h0
  · intro m hm
    have hm' := (createMatches_perm players rs).mem_iff.1 hm
    rw [mem_genMatches] at hm'
    obtain ⟨i, j, k, l, h1, h2, h3, h4, rfl⟩ := hm'
    have hred : participantIds (mkMatch (players.getD i default) (players.getD j default)
        (players.getD k default) (players.getD l default)) =
        {(players.getD i default).id, (players.getD j default).id,
         (players.getD k default).id, (players.getD l default).id} := rfl
    rw [hred]
    exact card4
      (ids_distinct players hids i j (by omega) (by omega) (by omega))
      (ids_distinct players hids i k (by omega) (by omega) (by omega))
      (ids_distinct players hids i l (by omega) (by omega) (by omega))
      (ids_distinct players hids j k (by omega) (by omega) (by omega))
      (ids_distinct players hids j l (by omega) (by omega) (by omega))
      (ids_distinct players hids k l (by omega) (by omega) (by omega))
  · intro i j k l hij hjk hkl hln
    rw [(createMatches_perm players rs).countP_eq]
    unfold genMatches
    rw [List.countP_map]
    apply countP_eq_one_of_unique _ _ (i, j, k, l) (nodup_combos4 _)
      ((mem_combos4 _ i j k l).2 ⟨hij, hjk, hkl, hln⟩)
    · simp [Function.comp, participantIds, mkMatch]
    · rintro ⟨a, b, c, d⟩ hmem hpb
      rw [mem_combos4] at hmem
      obtain ⟨hab, hbc, hcd, hdn⟩ := hmem
      simp only [Function.comp, participantIds, mkMatch, decide_eq_true_eq] at hpb
      have idx_eq : ∀ x y, x < players.length → y < players.length →
          (players.getD x default).id = (players.getD y default).id → x = y := by
        intro x y hx hy h
        by_contra hxy
        exact ids_distinct players hids x y hx hy hxy h
      have mem4 : ∀ x, x < players.length →
          (players.getD x default).id ∈
            ({(players.getD i default).id, (players.getD j default).id,
              (players.getD k default).id, (players.getD l default).id} : Finset Nat) →
          x = i ∨ x = j ∨ x = k ∨ x = l := by
        intro x hx hm2
        simp only [Finset.mem_insert, Finset.mem_singleton] at hm2
        rcases hm2 with h | h | h | h
        · exact Or.inl (idx_eq x i hx (by omega) h)
        · exact Or.inr (Or.inl (idx_eq x j hx (by omega) h))
        · exact Or.inr (Or.inr (Or.inl (idx_eq x k hx (by omega) h)))
        · exact Or.inr (Or.inr (Or.inr (idx_eq x l hx (by omega) h)))
      have ha' := mem4 a (by omega) (by rw [← hpb]; simp)
      have hb' := mem4 b (by omega) (by rw [← hpb]; simp)
      have hc' := mem4 c (by omega) (by rw [← hpb]; simp)
      have hd' := mem4 d (by omega) (by rw [← hpb]; simp)
      simp only [Prod.mk.injEq]
      omega

/-- Concrete 5-player roster used by the generator witnesses. -/
def genWPlayers : List Player :=
  [⟨0, "A"⟩, ⟨1, "B"⟩, ⟨2, "C"⟩, ⟨3, "D"⟩, ⟨4, "E"⟩]

theorem generator_count_and_coverage_witness :
    (genWPlayers.map (fun p => p.id)).Nodup ∧
    (createMatches genWPlayers (fun _ => 0)).length = 5 ∧
    (∀ m ∈ createMatches genWPlayers (fun _ => 0), (participantIds m).card = 4) ∧
    (createMatches genWPlayers (fun _ => 0)).countP (fun m => participantIds m =
      ({(genWPlayers.getD 0 default).id, (genWPlayers.getD 1 default).id,
        (genWPlayers.getD 2 default).id, (genWPlayers.getD 3 default).id} : Finset Nat)) = 1 :=
  ⟨by decide,
    ((generator_count_and_coverage genWPlayers (fun _ => 0) (by decide)).1).trans (by decide),
    (generator_count_and_coverage genWPlayers (fun _ => 0) (by decide)).2.2.1,
    (generator_count_and_coverage genWPlayers (fun _ => 0) (by decide)).2.2.2 0 1 2 3
      (by decide) (by decide) (by decide) (by decide)⟩

/-- Two sorted index quadruples over a duplicate-free roster whose participant
id sets agree are equal. -/
theorem quad_eq_of_ids_eq (players : List Player)
    (hids : (players.map (fun p => p.id)).Nodup)
    {a b c d i j k l : Nat}
    (h1 : a < b) (h2 : b < c) (h3 : c < d) (h4 : d < players.length)
    (h5 : i < j) (h6 : j < k) (h7 : k < l) (h8 : l < players.length)
    (heq : ({(players.getD a default).id, (players.getD b default).id,
        (players.getD c default).id, (players.getD d default).id} : Finset Nat) =
      {(players.getD i default).id, (players.getD j default).id,
        (players.getD k default).id, (players.getD l default).id}) :
    a = i ∧ b = j ∧ c = k ∧ d = l := by
  have idx_eq : ∀ x y, x < players.length → y < players.length →
      (players.getD x default).id = (players.getD y default).id → x = y := by
    intro x y hx hy h
    by_contra hxy
    exact ids_distinct players hids x y hx hy hxy h
  have mem4 : ∀ x, x < players.length →
      (players.getD x default).id ∈
        ({(players.getD i default).id, (players.getD j default).id,
          (players.getD k default).id, (players.getD l default).id} : Finset Nat) →
      x = i ∨ x = j ∨ x = k ∨ x = l := by
    intro x hx hm2
    simp only [Finset.mem_insert, Finset.mem_singleton] at hm2
    rcases hm2 with h | h | h | h
    · exact Or.inl (idx_eq x i hx (by omega) h)
    · exact Or.inr (Or.inl (idx_eq x j hx (by omega) h))
    · exact Or.inr (Or.inr (Or.inl (idx_eq x k hx (by omega) h)))
    · exact Or.inr (Or.inr (Or.inr (idx_eq x l hx (by omega) h)))
  have ha' := mem4 a (by omega) (by rw [← heq]; simp)
  have hb' := mem4 b (by omega) (by rw [← heq]; simp)
  have hc' := mem4 c (by omega) (by rw [← heq]; simp)
  have hd' := mem4 d (by omega) (by rw [← heq]; simp)
  omega

/-- C7: every generated match comes from a quadruple of roster indices
`i < j < k < l` with team1 the players at `i`, `j` and team2 the players at
`k`, `l`, null scores and `completed = false`; and, for a duplicate-free
roster, two generated matches over the same 4-subset have identical teams —
only the one fixed split of each 4-subset ever occurs. -/
theorem generator_fixed_split (players : List Player) (rs : Nat → Nat) :
    (∀ m ∈ createMatches players rs, ∃ i j k l,
      i < j ∧ j < k ∧ k < l ∧ l < players.length ∧
      m.team1 = ⟨players.getD i default, players.getD j default⟩ ∧
      m.team2 = ⟨players.getD k default, players.getD l default⟩ ∧
      m.score1 = none ∧ m.score2 = none ∧ m.completed = false) ∧
    ((players.map (fun p => p.id)).Nodup →
      ∀ m ∈ createMatches players rs, ∀ m' ∈ createMatches players rs,
        participantIds m = participantIds m' → m.team1 = m'.team1 ∧ m.team2 = m'.team2) := by
  constructor
  · intro m hm
    have hm' := (createMatches_perm players rs).mem_iff.1 hm
    rw [mem_genMatches] at hm'
    obtain ⟨i, j, k, l, h1, h2, h3, h4, rfl⟩ := hm'
    exact ⟨i, j, k, l, h1, h2, h3, h4, rfl, rfl, rfl, rfl, rfl⟩
  · intro hids m hm m' hm'
    have h1 := (createMatches_perm players rs).mem_iff.1 hm
    have h2 := (createMatches_perm players rs).mem_iff.1 hm'
    rw [mem_genMatches] at h1 h2
    obtain ⟨i, j, k, l, hij, hjk, hkl, hln, rfl⟩ := h1
    obtain ⟨i', j', k', l', hij', hjk', hkl', hln', rfl⟩ := h2
    intro heq
    obtain ⟨e1, e2, e3, e4⟩ := quad_eq_of_ids_eq players hids hij hjk hkl hln
      hij' hjk' hkl' hln' heq
    subst e1; subst e2; subst e3; subst e4
    exact ⟨rfl, rfl⟩

theorem generator_fixed_split_witness :
    (∀ m ∈ createMatches genWPlayers (fun i => i * 7 + 3), ∃ i j k l,
      i < j ∧ j < k ∧ k < l ∧ l < genWPlayers.length ∧
      m.team1 = ⟨genWPlayers.getD i default, genWPlayers.getD j default⟩ ∧
      m.team2 = ⟨genWPlayers.getD k default, genWPlayers.getD l default⟩ ∧
      m.score1 = none ∧ m.score2 = none ∧ m.completed = false) ∧
    ((genWPlayers.map (fun p => p.id)).Nodup →
      ∀ m ∈ createMatches genWPlayers (fun i => i * 7 + 3),
        ∀ m' ∈ createMatches genWPlayers (fun i => i * 7 + 3),
        participantIds m = participantIds m' → m.team1 = m'.team1 ∧ m.team2 = m'.team2) :=
  generator_fixed_split genWPlayers (fun i => i * 7 + 3)

/-! ### Match identifiers: `Nat.repr` is injective and digit-only

The template literal joins the four participant ids with dashes.  Decimal
digit strings contain no dash, so the join parses back uniquely; this section
proves it from first principles over core's `Nat.toDigitsCore`. -/

/-- Value of a decimal digit character. -/
def chVal (c : Char) : Nat := c.toNat - 48

/-- Left fold reading a digit string back into a number. -/
def digitsVal (cs : List Char) : Nat := cs.foldl (fun a c => a * 10 + chVal c) 0

theorem digit_facts : ∀ v < 10, chVal (Nat.digitChar v) = v ∧ Nat.digitChar v ≠ '-' := by
  decide

theorem toDigitsCore_append (f : Nat) :
    ∀ (n : Nat) (ds : List Char),
      Nat.toDigitsCore 10 f n ds = Nat.toDigitsCore 10 f n [] ++ ds := by
  induction f with
  | zero => intro n ds; simp [Nat.toDigitsCore]
  | succ f ih =>
      intro n ds
      unfold Nat.toDigitsCore
      simp only []
      split
      · simp
      · rw [ih (n / 10) (Nat.digitChar (n % 10) :: ds), ih (n / 10) [Nat.digitChar (n % 10)]]
        simp

theorem digitsVal_toDigitsCore (f : Nat) :
    ∀ n : Nat, n < f → digitsVal (Nat.toDigitsCore 10 f n []) = n := by
  induction f with
  | zero => omega
  | succ f ih =>
      intro n hn
      unfold Nat.toDigitsCore
      simp only []
      split
      · next h0 =>
          simp only [digitsVal, List.foldl_cons, List.foldl_nil]
          rw [(digit_facts (n % 10) (by omega)).1]
          omega
      · next h0 =>
          rw [toDigitsCore_append f (n / 10) [Nat.digitChar (n % 10)]]
          have hlt : n / 10 < f := by omega
          have hdv := ih (n / 10) hlt
          have := (digit_facts (n % 10) (by omega)).1
          simp only [digitsVal, List.foldl_append, List.foldl_cons, List.foldl_nil] at hdv ⊢
          rw [hdv, this]
          omega

theorem toDigitsCore_no_dash (f : Nat) :
    ∀ (n : Nat) (ds : List Char), (∀ c ∈ ds, c ≠ '-') →
      ∀ c ∈ Nat.toDigitsCore 10 f n ds, c ≠ '-' := by
  induction f with
  | zero => intro n ds hds; simpa [Nat.toDigitsCore] using hds
  | succ f ih =>
      intro n ds hds
      unfold Nat.toDigitsCore
      simp only []
      split
      · intro c hc
        rcases List.mem_cons.1 hc with rfl | hc'
        · exact (digit_facts (n % 10) (by omega)).2
        · exact hds c hc'
      · refine ih (n / 10) _ ?_
        intro c hc
        rcases List.mem_cons.1 hc with rfl | hc'
        · exact (digit_facts (n % 10) (by omega)).2
        · exact hds c hc'

theorem repr_data_val (n : Nat) : digitsVal (Nat.repr n).data = n := by
  have : (Nat.repr n).data = Nat.toDigitsCore 10 (n + 1) n [] := rfl
  rw [this]
  exact digitsVal_toDigitsCore (n + 1) n (by omega)

theorem repr_no_dash (n : Nat) : ∀ c ∈ (Nat.repr n).data, c ≠ '-' := by
  have : (Nat.repr n).data = Nat.toDigitsCore 10 (n + 1) n [] := rfl
  rw [this]
  exact toDigitsCore_no_dash (n + 1) n [] (by simp)

theorem append_dash_inj :
    ∀ (xs1 xs2 ys1 ys2 : List Char), (∀ c ∈ xs1, c ≠ '-') → (∀ c ∈ xs2, c ≠ '-') →
      xs1 ++ '-' :: ys1 = xs2 ++ '-' :: ys2 → xs1 = xs2 ∧ ys1 = ys2
  | [], [], ys1, ys2, _, _, h => ⟨rfl, by simpa using h⟩
  | [], x :: xs2, ys1, ys2, _, h2, h => by
      simp only [List.nil_append, List.cons_append, List.cons.injEq] at h
      exact absurd h.1.symm (h2 x (by simp))
  | x :: xs1, [], ys1, ys2, h1, _, h => by
      simp only [List.nil_append, List.cons_append, List.cons.injEq] at h
      exact absurd h.1 (h1 x (by simp))
  | x :: xs1, y :: xs2, ys1, ys2, h1, h2, h => by
      simp only [List.cons_append, List.cons.injEq] at h
      obtain ⟨hxy, hrest⟩ := h
      obtain ⟨ha, hb⟩ := append_dash_inj xs1 xs2 ys1 ys2
        (fun c hc => h1 c (by simp [hc])) (fun c hc => h2 c (by simp [hc])) hrest
      exact ⟨by rw [hxy, ha], hb⟩

theorem string_append_data (s t : String) : (s ++ t).data = s.data ++ t.data := rfl

theorem matchIdStr_inj (a b c d a' b' c' d' : Nat)
    (h : matchIdStr a b c d = matchIdStr a' b' c' d') :
    a = a' ∧ b = b' ∧ c = c' ∧ d = d' := by
  have hd : (matchIdStr a b c d).data = (matchIdStr a' b' c' d').data := by rw [h]
  have expand : ∀ x y z w : Nat, (matchIdStr x y z w).data =
      (Nat.repr x).data ++ '-' :: ((Nat.repr y).data ++ '-' ::
        ((Nat.repr z).data ++ '-' :: (Nat.repr w).data)) := by
    intro x y z w
    show ((Nat.repr x ++ "-" ++ Nat.repr y ++ "-" ++ Nat.repr z ++ "-" ++ Nat.repr w)).data = _
    simp only [string_append_data]
    simp [String.data]
  rw [expand, expand] at hd
  obtain ⟨e1, hd2⟩ := append_dash_inj _ _ _ _ (repr_no_dash a) (repr_no_dash a') hd
  obtain ⟨e2, hd3⟩ := append_dash_inj _ _ _ _ (repr_no_dash b) (repr_no_dash b') hd2
  obtain ⟨e3, e4⟩ := append_dash_inj _ _ _ _ (repr_no_dash c) (repr_no_dash c') hd3
  refine ⟨?_, ?_, ?_, ?_⟩
  · rw [← repr_data_val a, ← repr_data_val a', e1]
  · rw [← repr_data_val b, ← repr_data_val b', e2]
  · rw [← repr_data_val c, ← repr_data_val c', e3]
  · rw [← repr_data_val d, ← repr_data_val d', e4]

theorem genMatches_ids_nodup (players : List Player)
    (hids : (players.map (fun p => p.id)).Nodup) :
    ((genMatches players).map (fun m => m.id)).Nodup := by
  unfold genMatches
  rw [List.map_map]
  apply List.Nodup.map_on ?_ (nodup_combos4 players.length)
  rintro ⟨a, b, c, d⟩ hq ⟨a', b', c', d'⟩ hq' heq
  rw [mem_combos4] at hq hq'
  obtain ⟨hab, hbc, hcd, hdn⟩ := hq
  obtain ⟨hab', hbc', hcd', hdn'⟩ := hq'
  simp only [Function.comp, mkMatch] at heq
  obtain ⟨e1, e2, e3, e4⟩ := matchIdStr_inj _ _ _ _ _ _ _ _ heq
  have idx_eq : ∀ x y, x < players.length → y < players.length →
      (players.getD x default).id = (players.getD y default).id → x = y := by
    intro x y hx hy h
    by_contra hxy
    exact ids_distinct players hids x y hx hy hxy h
  have ea := idx_eq a a' (by omega) (by omega) e1
  have eb := idx_eq b b' (by omega) (by omega) e2
  have ec := idx_eq c c' (by omega) (by omega) e3
  have ed := idx_eq d d' (by omega) (by omega) e4
  simp only [Prod.mk.injEq]
  exact ⟨ea, eb, ec, ed⟩

/-- C8: the multiset of match identifiers does not depend on the shuffle
draws; every identifier is the dash-joined 4-tuple of the participants' ids
in generation order; and, for a duplicate-free roster, identifiers are
pairwise distinct. -/
theorem generator_id_reproducibility (players : List Player) (rs1 rs2 : Nat → Nat)
    (hids : (players.map (fun p => p.id)).Nodup) :
    ((createMatches players rs1).map (fun m => m.id)).Perm
      ((createMatches players rs2).map (fun m => m.id)) ∧
    (∀ m ∈ createMatches players rs1, m.id =
      matchIdStr m.team1.player1.id m.team1.player2.id m.team2.player1.id
        m.team2.player2.id) ∧
    ((createMatches players rs1).map (fun m => m.id)).Nodup := by
  refine ⟨?_, ?_, ?_⟩
  · exact ((createMatches_perm players rs1).map _).trans
      (((createMatches_perm players rs2).map _).symm)
  · intro m hm
    have hm' := (createMatches_perm players rs1).mem_iff.1 hm
    rw [mem_genMatches] at hm'
    obtain ⟨i, j, k, l, _, _, _, _, rfl⟩ := hm'
    rfl
  · exact ((createMatches_perm players rs1).map _).nodup_iff.2
      (genMatches_ids_nodup players hids)

theorem generator_id_reproducibility_witness :
    (genWPlayers.map (fun p => p.id)).Nodup ∧
    ((createMatches genWPlayers (fun _ => 0)).map (fun m => m.id)).Perm
      ((createMatches genWPlayers (fun i => i + 5)).map (fun m => m.id)) ∧
    ((createMatches genWPlayers (fun _ => 0)).map (fun m => m.id)).Nodup :=
  ⟨by decide,
    (generator_id_reproducibility genWPlayers (fun _ => 0) (fun i => i + 5) (by decide)).1,
    (generator_id_reproducibility genWPlayers (fun _ => 0) (fun i => i + 5) (by decide)).2.2⟩

/-! ## Reference operations on the tournament list

`handleCreateTournament` (guarded by roster size and a non-empty trimmed
name) appends a new tournament; `handleUpdateScore` maps over the list,
rewriting the targeted match of the active tournament with both scores and
`completed: true`; `handleDeleteMatch` filters the targeted match out.  The
`Date.now()`-derived tournament id and the shuffle draws are parameters. -/

instance : Inhabited Team := ⟨⟨default, default⟩⟩

instance : Inhabited Match := ⟨⟨"", default, default, none, none, false⟩⟩

instance : Inhabited Tournament := ⟨⟨"", "", "", [], [], none, none⟩⟩

/-- The `newTournament` object of `handleCreateTournament`.  `name` and
`location` are the already-trimmed input strings (the handler calls `.trim()`
on the raw form fields before both the guard and the assignment, so only the
trimmed values flow into the tournament). -/
def createTournament (players : List Player) (name createdAt location time tid : String)
    (rs : Nat → Nat) : Tournament :=
  { id := tid
    name := name
    createdAt := createdAt
    players := players
    matches' := createMatches players rs
    location := some location
    time := some time }

/-- `handleUpdateScore`. -/
def updateScore (ts : List Tournament) (activeId matchId : String)
    (score1 score2 : Int) : List Tournament :=
  ts.map fun t =>
    if t.id = activeId then
      { t with matches' := t.matches'.map fun m =>
          if m.id = matchId then
            { m with score1 := some score1, score2 := some score2, completed := true }
          else m }
    else t

/-- `handleDeleteMatch` (the confirm dialog accepted). -/
def deleteMatch (ts : List Tournament) (activeId matchId : String) : List Tournament :=
  ts.map fun t =>
    if t.id = activeId then
      { t with matches' := t.matches'.filter (fun m => m.id ≠ matchId) }
    else t

/-- Tournament-list states reachable through the reference operations. -/
inductive Reach : List Tournament → Prop where
  | start : Reach []
  | create (ts : List Tournament) (players : List Player)
      (name createdAt location time tid : String) (rs : Nat → Nat) :
      Reach ts → 4 ≤ players.length → name ≠ "" →
      Reach (ts ++ [createTournament players name createdAt location time tid rs])
  | update (ts : List Tournament) (activeId matchId : String) (s1 s2 : Int) :
      Reach ts → Reach (updateScore ts activeId matchId s1 s2)
  | delete (ts : List Tournament) (activeId matchId : String) :
      Reach ts → Reach (deleteMatch ts activeId matchId)

/-- C6 (amended): in every reachable state, a match is completed exactly when
both its scores are set (scores need not be non-negative). -/
theorem reachable_completed_iff_scored (ts : List Tournament) (h : Reach ts) :
    ∀ t ∈ ts, ∀ m ∈ t.matches', m.completed = true ↔ m.score1 ≠ none ∧ m.score2 ≠ none := by
  induction h with
  | start => simp
  | create ts players name createdAt location time tid rs hr h4 hname ih =>
      intro t ht m hm
      rcases List.mem_append.1 ht with ht' | ht'
      · exact ih t ht' m hm
      · have heq : t = createTournament players name createdAt location time tid rs := by
          simpa using ht'
        subst heq
        have hm' := (createMatches_perm players rs).mem_iff.1 hm
        rw [mem_genMatches] at hm'
        obtain ⟨i, j, k, l, _, _, _, _, rfl⟩ := hm'
        simp [mkMatch]
  | update ts activeId matchId s1 s2 hr ih =>
      intro t ht m hm
      unfold updateScore at ht
      rcases List.mem_map.1 ht with ⟨t0, ht0, rfl⟩
      by_cases hid : t0.id = activeId
      · rw [if_pos hid] at hm
        simp only [] at hm
        rcases List.mem_map.1 hm with ⟨m0, hm0, rfl⟩
        by_cases hmid : m0.id = matchId
        · simp [hmid]
        · simp only [if_neg hmid]
          exact ih t0 ht0 m0 hm0
      · rw [if_neg hid] at hm
        exact ih t0 ht0 m hm
  | delete ts activeId matchId hr ih =>
      intro t ht m hm
      unfold deleteMatch at ht
      rcases List.mem_map.1 ht with ⟨t0, ht0, rfl⟩
      by_cases hid : t0.id = activeId
      · rw [if_pos hid] at hm
        simp only [] at hm
        exact ih t0 ht0 m (List.mem_filter.1 hm).1
      · rw [if_neg hid] at hm
        exact ih t0 ht0 m hm

/-- A reachable state in which a completed match has a negative score:
create a 4-player tournament, then save scores `-1` and `5` (the score form
accepts any integers `parseInt` produces). -/
def negScoreState : List Tournament :=
  updateScore
    ([] ++ [createTournament [⟨0, "A"⟩, ⟨1, "B"⟩, ⟨2, "C"⟩, ⟨3, "D"⟩]
      "T" "now" "loc" "tm" "tourn_1" (fun _ => 0)])
    "tourn_1" "0-1-2-3" (-1) 5

theorem negScoreState_reach : Reach negScoreState :=
  Reach.update _ _ _ _ _
    (Reach.create [] [⟨0, "A"⟩, ⟨1, "B"⟩, ⟨2, "C"⟩, ⟨3, "D"⟩]
      "T" "now" "loc" "tm" "tourn_1" (fun _ => 0) Reach.start (by decide) (by decide))

/-- Counterexample to C6 as stated: the state above is reachable, yet it
contains a completed match whose first score is negative, refuting
"completed == true iff both scores are non-null integers ≥ 0". -/
theorem reachable_negative_score_cex :
    Reach negScoreState ∧
    ∃ t ∈ negScoreState, ∃ m ∈ t.matches',
      m.completed = true ∧ ∃ s : Int, m.score1 = some s ∧ s < 0 :=
  ⟨negScoreState_reach, by decide⟩

theorem reachable_completed_iff_scored_witness :
    Reach negScoreState ∧
    (∀ t ∈ negScoreState, ∀ m ∈ t.matches',
      m.completed = true ↔ m.score1 ≠ none ∧ m.score2 ≠ none) :=
  ⟨negScoreState_reach,
    reachable_completed_iff_scored negScoreState negScoreState_reach⟩

theorem getD_map [Inhabited α] [Inhabited β] (l : List α) (f : α → β) (i : Nat)
    (hi : i < l.length) : (l.map f).getD i default = f (l.getD i default) := by
  rw [List.getD_eq_getElem _ _ (by simpa using hi), List.getD_eq_getElem _ _ hi,
    List.getElem_map]

/-- C10: a score update rewrites exactly the matches with the targeted id
inside the tournament with the active id — both scores set together, completed
flipped to true — and changes nothing else; a deletion removes exactly the
matches with the targeted id (exactly one when match ids are duplicate-free
and the target exists) and changes nothing else; neither operation can
produce a half-scored match from a well-formed state. -/
theorem update_delete_frame (ts : List Tournament) (aid mid : String) (s1 s2 : Int)
    (i : Nat) (hi : i < ts.length) :
    (updateScore ts aid mid s1 s2).length = ts.length ∧
    (deleteMatch ts aid mid).length = ts.length ∧
    ((ts.getD i default).id ≠ aid →
      (updateScore ts aid mid s1 s2).getD i default = ts.getD i default ∧
      (deleteMatch ts aid mid).getD i default = ts.getD i default) ∧
    ((ts.getD i default).id = aid →
      ((updateScore ts aid mid s1 s2).getD i default).id = (ts.getD i default).id ∧
      ((updateScore ts aid mid s1 s2).getD i default).name = (ts.getD i default).name ∧
      ((updateScore ts aid mid s1 s2).getD i default).createdAt =
        (ts.getD i default).createdAt ∧
      ((updateScore ts aid mid s1 s2).getD i default).players =
        (ts.getD i default).players ∧
      ((updateScore ts aid mid s1 s2).getD i default).location =
        (ts.getD i default).location ∧
      ((updateScore ts aid mid s1 s2).getD i default).time = (ts.getD i default).time ∧
      ((updateScore ts aid mid s1 s2).getD i default).matches'.length =
        (ts.getD i default).matches'.length ∧
      (∀ j, j < (ts.getD i default).matches'.length →
        (((ts.getD i default).matches'.getD j default).id = mid →
          ((updateScore ts aid mid s1 s2).getD i default).matches'.getD j default =
            { (ts.getD i default).matches'.getD j default with
                score1 := some s1, score2 := some s2, completed := true }) ∧
        (((ts.getD i default).matches'.getD j default).id ≠ mid →
          ((updateScore ts aid mid s1 s2).getD i default).matches'.getD j default =
            (ts.getD i default).matches'.getD j default)) ∧
      ((deleteMatch ts aid mid).getD i default) =
        { (ts.getD i default) with
            matches' := (ts.getD i default).matches'.filter (fun m => m.id ≠ mid) } ∧
      (((ts.getD i default).matches'.map (fun m => m.id)).Nodup →
        ∀ m0 ∈ (ts.getD i default).matches', m0.id = mid →
          ((deleteMatch ts aid mid).getD i default).matches'.length + 1 =
            (ts.getD i default).matches'.length ∧
          ∀ m ∈ (ts.getD i default).matches', m ≠ m0 →
            m ∈ ((deleteMatch ts aid mid).getD i default).matches')) ∧
    ((∀ t ∈ ts, ∀ m ∈ t.matches', (m.score1 = none ↔ m.score2 = none)) →
      (∀ t ∈ updateScore ts aid mid s1 s2, ∀ m ∈ t.matches',
        (m.score1 = none ↔ m.score2 = none)) ∧
      (∀ t ∈ deleteMatch ts aid mid, ∀ m ∈ t.matches',
        (m.score1 = none ↔ m.score2 = none))) := by
  refine ⟨by simp [updateScore], by simp [deleteMatch], ?_, ?_, ?_⟩
  · intro hne
    unfold updateScore deleteMatch
    rw [getD_map ts _ i hi, getD_map ts _ i hi, if_neg hne, if_neg hne]
    exact ⟨rfl, rfl⟩
  · intro hida
    unfold updateScore deleteMatch
    rw [getD_map ts _ i hi, getD_map ts _ i hi, if_pos hida, if_pos hida]
    refine ⟨rfl, rfl, rfl, rfl, rfl, rfl, by simp, ?_, rfl, ?_⟩
    · intro j hj
      constructor
      · intro hjid
        rw [getD_map _ _ j hj, if_pos hjid]
      · intro hjid
        rw [getD_map _ _ j hj, if_neg hjid]
    · intro hnd m0 hm0 hm0id
      have hlnodup : (ts.getD i default).matches'.Nodup := hnd.of_map
      have hinj := List.inj_on_of_nodup_map hnd
      have hcnt : (ts.getD i default).matches'.countP (fun m => m.id = mid) = 1 := by
        apply countP_eq_one_of_unique _ _ m0 hlnodup hm0 (by simp [hm0id])
        intro b hb hpb
        exact hinj hb hm0 (by simp at hpb; rw [hpb, hm0id])
      constructor
      · have htot := List.length_eq_countP_add_countP
          (fun m => decide (m.id = mid)) (ts.getD i default).matches'
        have hflt : ((ts.getD i default).matches'.filter (fun m => m.id ≠ mid)).length =
            (ts.getD i default).matches'.countP (fun m => m.id ≠ mid) :=
          (List.countP_eq_length_filter _ _).symm
        simp only [hflt]
        have : ((ts.getD i default).matches'.countP (fun m => m.id ≠ mid)) =
            (ts.getD i default).matches'.countP (fun m => ¬ (decide (m.id = mid)) = true) := by
          apply List.countP_congr
          intro m _
          simp
        rw [this]
        omega
      · intro m hm hne
        refine List.mem_filter.2 ⟨hm, ?_⟩
        simp only [ne_eq, decide_not]
        have : ¬ m.id = mid := fun h => hne (hinj hm hm0 (by rw [h, hm0id]))
        simpa using this
  · intro hinv
    constructor
    · intro t ht m hm
      unfold updateScore at ht
      rcases List.mem_map.1 ht with ⟨t0, ht0, rfl⟩
      by_cases hid : t0.id = aid
      · rw [if_pos hid] at hm
        simp only [] at hm
        rcases List.mem_map.1 hm with ⟨m0, hm0, rfl⟩
        by_cases hmid : m0.id = mid
        · simp [hmid]
        · simp only [if_neg hmid]
          exact hinv t0 ht0 m0 hm0
      · rw [if_neg hid] at hm
        exact hinv t0 ht0 m hm
    · intro t ht m hm
      unfold deleteMatch at ht
      rcases List.mem_map.1 ht with ⟨t0, ht0, rfl⟩
      by_cases hid : t0.id = aid
      · rw [if_pos hid] at hm
        simp only [] at hm
        exact hinv t0 ht0 m (List.mem_filter.1 hm).1
      · rw [if_neg hid] at hm
        exact hinv t0 ht0 m hm

/-- Concrete one-tournament state for the frame witness. -/
def frameWT : List Tournament :=
  [createTournament [⟨0, "A"⟩, ⟨1, "B"⟩, ⟨2, "C"⟩, ⟨3, "D"⟩]
    "T" "now" "loc" "tm" "tourn_1" (fun _ => 0)]

theorem update_delete_frame_witness :
    0 < frameWT.length ∧
    (frameWT.getD 0 default).id = "tourn_1" ∧
    (updateScore frameWT "tourn_1" "0-1-2-3" 3 7).length = frameWT.length ∧
    ((updateScore frameWT "tourn_1" "0-1-2-3" 3 7).getD 0 default).players =
      (frameWT.getD 0 default).players ∧
    (deleteMatch frameWT "tourn_1" "0-1-2-3").getD 0 default =
      { frameWT.getD 0 default with
          matches' := (frameWT.getD 0 default).matches'.filter
            (fun m => m.id ≠ "0-1-2-3") } :=
  ⟨by decide, by decide,
   (update_delete_frame frameWT "tourn_1" "0-1-2-3" 3 7 0 (by decide)).1,
   ((update_delete_frame frameWT "tourn_1" "0-1-2-3" 3 7 0 (by decide)).2.2.2.1
     (by decide)).2.2.2.1,
   ((update_delete_frame frameWT "tourn_1" "0-1-2-3" 3 7 0 (by decide)).2.2.2.1
     (by decide)).2.2.2.2.2.2.2.2.1⟩

/-! ## Share codec (`handleShare` and the decode `useEffect`)

The pipeline is `JSON.stringify` → `pako.deflate` → url-safe base64 on
encode, and the inverse chain plus the structural rebuild on decode.  The
JSON and deflate primitives are out-of-repository collaborators (spec
section 6); they appear as function parameters (`stringify`/`parse`,
`deflate`/`inflate`), and the codec theorems take the conformance facts the
spec requires of them (byte-valued output, lossless round-trip) as
hypotheses at the value being transported.  The wire object is typed
(`ShareData`), standing for the JSON value with single-letter keys;
`undefined` entries written by the encoder (a participant id missing from the
index map, a dropped falsy `l`/`t` field) and JSON `null` both serialise the
same way and appear as `none`.  On decode, destructuring a compact record can
also produce `undefined` for an entry the record does not have at all; there
the distinction is observable (`undefined !== null` is true), so a
destructured slot is three-valued: `none` is `undefined`, `some none` a stored
`null`, `some (some n)` a number. -/

/-- The compact shareable object built by `handleShare`. -/
structure ShareData where
  v : Int
  n : String
  l : Option String
  t : Option String
  c : String
  p : List String
  m : List (List (Option Int))
  deriving DecidableEq, Repr

/-- One assignment into the `Map` (replace the key if present). -/
def mapSet (k v : Nat) : List (Nat × Nat) → List (Nat × Nat)
  | [] => [(k, v)]
  | (k', v') :: rest => if k' = k then (k, v) :: rest else (k', v') :: mapSet k v rest

/-- `Map.get`: `none` is `undefined`. -/
def mapGet (k : Nat) : List (Nat × Nat) → Option Nat
  | [] => none
  | (k', v') :: rest => if k' = k then some v' else mapGet k rest

/-- `playerIdToIndexMap`: each roster player's id maps to its 0-based index. -/
def playerIdToIndexMap (players : List Player) : List (Nat × Nat) :=
  players.enum.foldl (fun acc iv => mapSet iv.2.id iv.1 acc) []

/-- The 6-entry compact record of one match: four roster indices (or
`undefined` for an id missing from the map) and the two nullable scores. -/
def compactMatch (idx : Nat → Option Nat) (m : Match) : List (Option Int) :=
  [(idx m.team1.player1.id).map (fun i => (i : Int)),
   (idx m.team1.player2.id).map (fun i => (i : Int)),
   (idx m.team2.player1.id).map (fun i => (i : Int)),
   (idx m.team2.player2.id).map (fun i => (i : Int)),
   m.score1, m.score2]

/-- `tournament.location || undefined`: the empty string is falsy and is
dropped from the wire object, as is an absent field. -/
def orUndefined : Option String → Option String
  | some s => if s = "" then none else some s
  | none => none

/-- The `shareableData` object of `handleShare`. -/
def shareData (tn : Tournament) : ShareData :=
  { v := 1
    n := tn.name
    l := orUndefined tn.location
    t := orUndefined tn.time
    c := tn.createdAt
    p := tn.players.map (fun p => p.name)
    m := tn.matches'.map
      (compactMatch (fun pid => mapGet pid (playerIdToIndexMap tn.players))) }

/-- A rebuilt team slot: `players[p_idx]` evaluates to `undefined` when the
index is null or out of the rebuilt roster's bounds — no error is raised. -/
structure RawTeam where
  player1 : Option Player
  player2 : Option Player
  deriving DecidableEq, Repr

/-- A match as actually rebuilt by the decode effect: the team slots can
hold `undefined` players.  The stored score fields identify a destructured
`undefined` with `null` (both are "no number", and every consumer of the
rebuilt value — `?? 0`, `?.toString()` — treats them alike); the `completed`
flag, which tests `!== null` before that identification, is computed from the
three-valued slots in `rebuildMatch`. -/
structure RawMatch where
  id : String
  team1 : RawTeam
  team2 : RawTeam
  score1 : Option Int
  score2 : Option Int
  completed : Bool
  deriving DecidableEq, Repr

instance : Inhabited RawMatch := ⟨⟨"", ⟨none, none⟩, ⟨none, none⟩, none, none, false⟩⟩

/-- The tournament value handed to `setViewOnlyTournament`. -/
structure RawTournament where
  id : String
  name : String
  createdAt : String
  players : List Player
  matches' : List RawMatch
  location : Option String
  time : Option String
  deriving DecidableEq, Repr

/-- `players[i]` for a nullable, possibly out-of-range index. -/
def lookupIdx (players : List Player) : Option Int → Option Player
  | some n =>
      if 0 ≤ n ∧ n.toNat < players.length then some (players.getD n.toNat default)
      else none
  | none => none

/-- The interpolated slot as it appears in the rebuilt id string: a missing
entry destructures to `undefined` and prints as `"undefined"`, a stored
`null` prints as `"null"`. -/
def slotStr : Option (Option Int) → String
  | none => "undefined"
  | some none => "null"
  | some (some n) => n.repr

/-- The rebuilt match id `${p1_idx}-${p2_idx}-${p3_idx}-${p4_idx}`. -/
def rawId (i1 i2 i3 i4 : Option (Option Int)) : String :=
  slotStr i1 ++ "-" ++ slotStr i2 ++ "-" ++ slotStr i3 ++ "-" ++ slotStr i4

/-- Rebuild one match from its compact record.  Destructuring reads the slots
as `md[k]?`: `none` is `undefined` (the record is shorter than six entries),
`some none` a stored `null`.  The strict test `score1 !== null` is TRUE of
`undefined`, so a short record builds a match with `completed = true`; the
stored score fields and the `players[idx]` lookups treat `undefined` and
`null` alike (`Option.join` collapses both to no number). -/
def rebuildMatch (players : List Player) (md : List (Option Int)) : RawMatch :=
  let i1 := md[0]?
  let i2 := md[1]?
  let i3 := md[2]?
  let i4 := md[3]?
  let s1 := md[4]?
  let s2 := md[5]?
  { id := rawId i1 i2 i3 i4
    team1 := ⟨lookupIdx players i1.join, lookupIdx players i2.join⟩
    team2 := ⟨lookupIdx players i3.join, lookupIdx players i4.join⟩
    score1 := s1.join
    score2 := s2.join
    completed := decide (s1 ≠ some none ∧ s2 ≠ some none) }

/-- The structural rebuild of the decode effect: fresh positional player ids,
matches from the compact records.  It is total — no referential-integrity
check is performed. -/
def rebuildTournament (now : String) (d : ShareData) : RawTournament :=
  let players : List Player := d.p.enum.map (fun iv => ⟨iv.1, iv.2⟩)
  { id := "shared_" ++ now
    name := d.n
    createdAt := d.c
    players := players
    matches' := d.m.map (rebuildMatch players)
    location := d.l
    time := d.t }

/-- `handleShare`: stringify, deflate, url-safe base64. -/
def encodeShare (stringify : ShareData → String) (deflate : String → List Nat)
    (tn : Tournament) : String :=
  uint8ArrayToBase64Url (deflate (stringify (shareData tn)))

/-- The decode effect behind `#/view/`: every fallible stage aborts the whole
decode (the single `try/catch`); on success the rebuilt tournament is shown. -/
def decodeShare (inflate : List Nat → Option String) (parse : String → Option ShareData)
    (now : String) (token : String) : Option RawTournament := do
  let bytes ← base64UrlToUint8Array token
  let s ← inflate bytes
  let d ← parse s
  pure (rebuildTournament now d)

/-- C2 (amended): the decode chain fails as a single category — any base64,
decompression or parse failure makes the whole decode return nothing — and on
success the result is exactly the structural rebuild.  A stored index out of
the roster's bounds does NOT fail (see the counterexample below), and a
compact record shorter than six entries does not fail either: its missing
scores destructure to `undefined`, which the strict `!== null` test treats as
set, so the rebuilt match even reports `completed = true` with no scores. -/
theorem decode_failure_modes (inflate : List Nat → Option String)
    (parse : String → Option ShareData) (now token : String) :
    (base64UrlToUint8Array token = none → decodeShare inflate parse now token = none) ∧
    (∀ bytes, base64UrlToUint8Array token = some bytes → inflate bytes = none →
      decodeShare inflate parse now token = none) ∧
    (∀ bytes s, base64UrlToUint8Array token = some bytes → inflate bytes = some s →
      parse s = none → decodeShare inflate parse now token = none) ∧
    (∀ bytes s d, base64UrlToUint8Array token = some bytes → inflate bytes = some s →
      parse s = some d →
      decodeShare inflate parse now token = some (rebuildTournament now d)) ∧
    (∀ (players : List Player) (md : List (Option Int)), md.length ≤ 4 →
      (rebuildMatch players md).completed = true ∧
      (rebuildMatch players md).score1 = none ∧
      (rebuildMatch players md).score2 = none) := by
  refine ⟨?_, ?_, ?_, ?_, ?_⟩
  · intro h
    simp [decodeShare, h]
  · intro bytes h1 h2
    simp [decodeShare, h1, h2]
  · intro bytes s h1 h2 h3
    simp [decodeShare, h1, h2, h3]
  · intro bytes s d h1 h2 h3
    simp [decodeShare, h1, h2, h3]
  · intro players md hlen
    have h4 : md[4]? = none := List.getElem?_eq_none (by omega)
    have h5 : md[5]? = none := List.getElem?_eq_none (by omega)
    refine ⟨?_, ?_, ?_⟩ <;> simp [rebuildMatch, h4, h5]

/-- Wire object with a stored index (5) out of the decoded roster's bounds
(roster size 1). -/
def oobShareData : ShareData :=
  ⟨1, "T", none, none, "now", ["A"], [[some 5, some 0, some 0, some 0, none, none]]⟩

/-- Counterexample to C2 as stated: with conformant primitives, a token whose
wire object stores a roster index out of bounds decodes SUCCESSFULLY — no
DecodeError — and the resulting tournament is partially populated (an
`undefined` team slot). -/
theorem decode_oob_index_cex :
    decodeShare (fun _ => some "") (fun _ => some oobShareData) "now" "" =
      some (rebuildTournament "now" oobShareData) ∧
    (rebuildTournament "now" oobShareData).players.length = 1 ∧
    (rebuildTournament "now" oobShareData).matches'.map (fun m => m.team1.player1) =
      [none] ∧
    (rebuildTournament "now" oobShareData).matches'.map (fun m => m.team1.player2) =
      [some ⟨0, "A"⟩] := by
  refine ⟨?_, by decide, by decide, by decide⟩
  decide

theorem decode_failure_modes_witness :
    base64UrlToUint8Array "!" = none ∧
    decodeShare (fun _ => none) (fun _ => none) "now" "!" = none ∧
    decodeShare (fun _ => some "") (fun _ => some oobShareData) "now" "" =
      some (rebuildTournament "now" oobShareData) ∧
    ([some 0, some 1, some 2, some 3] : List (Option Int)).length ≤ 4 ∧
    (rebuildMatch [] [some 0, some 1, some 2, some 3]).completed = true :=
  ⟨by decide,
   (decode_failure_modes (fun _ => none) (fun _ => none) "now" "!").1 (by decide),
   (decode_failure_modes (fun _ => some "") (fun _ => some oobShareData) "now" "").2.2.2.1
     [] "" oobShareData (by decide) rfl rfl,
   by decide,
   ((decode_failure_modes (fun _ => none) (fun _ => none) "now" "!").2.2.2.2
     [] [some 0, some 1, some 2, some 3] (by decide)).1⟩

/-! ### Round-trip machinery for the index map -/

theorem mapGet_mapSet_self (k v : Nat) :
    ∀ acc : List (Nat × Nat), mapGet k (mapSet k v acc) = some v
  | [] => by simp [mapSet, mapGet]
  | (k', v') :: rest => by
      by_cases h : k' = k
      · simp [mapSet, mapGet, h]
      · simp [mapSet, mapGet, h, mapGet_mapSet_self k v rest]

theorem mapGet_mapSet_ne (k k' v : Nat) (h : k' ≠ k) :
    ∀ acc : List (Nat × Nat), mapGet k (mapSet k' v acc) = mapGet k acc
  | [] => by simp [mapSet, mapGet, h]
  | (k'', v'') :: rest => by
      by_cases h2 : k'' = k'
      · subst h2
        simp [mapSet, mapGet, h]
      · by_cases h3 : k'' = k
        · simp [mapSet, mapGet, h2, h3, Ne.symm h]
        · simp [mapSet, mapGet, h2, h3, mapGet_mapSet_ne k k' v h rest]

theorem mapGet_fold_notin :
    ∀ (ps : List Player) (start : Nat) (acc : List (Nat × Nat)) (pid : Nat),
      pid ∉ ps.map (fun p => p.id) →
      mapGet pid ((ps.enumFrom start).foldl (fun a iv => mapSet iv.2.id iv.1 a) acc) =
        mapGet pid acc
  | [], _, _, _, _ => rfl
  | p :: ps, start, acc, pid, h => by
      simp only [List.map_cons, List.mem_cons, not_or] at h
      rw [show (p :: ps).enumFrom start = (start, p) :: ps.enumFrom (start + 1) from rfl,
        List.foldl_cons]
      rw [mapGet_fold_notin ps (start + 1) _ pid h.2]
      exact mapGet_mapSet_ne pid p.id start (fun he => h.1 he.symm) acc

theorem mapGet_fold_idx :
    ∀ (ps : List Player) (start : Nat) (acc : List (Nat × Nat)) (i : Nat),
      i < ps.length → (ps.map (fun p => p.id)).Nodup →
      mapGet (ps.getD i default).id
        ((ps.enumFrom start).foldl (fun a iv => mapSet iv.2.id iv.1 a) acc) =
        some (start + i)
  | [], _, _, i, hi, _ => absurd hi (by simp)
  | p :: ps, start, acc, 0, hi, hnd => by
      rw [show (p :: ps).enumFrom start = (start, p) :: ps.enumFrom (start + 1) from rfl,
        List.foldl_cons]
      have hnotin : p.id ∉ ps.map (fun p => p.id) := by
        simp only [List.map_cons, List.nodup_cons] at hnd
        exact hnd.1
      rw [show (p :: ps).getD 0 default = p from rfl,
        mapGet_fold_notin ps (start + 1) _ p.id hnotin, mapGet_mapSet_self]
      simp
  | p :: ps, start, acc, i + 1, hi, hnd => by
      rw [show (p :: ps).enumFrom start = (start, p) :: ps.enumFrom (start + 1) from rfl,
        List.foldl_cons, List.getD_cons_succ]
      have := mapGet_fold_idx ps (start + 1) (mapSet p.id start acc) i
        (by simpa using hi) (by simp only [List.map_cons, List.nodup_cons] at hnd; exact hnd.2)
      rw [this]
      congr 1
      omega

theorem mapGet_playerIdToIndexMap (players : List Player)
    (hids : (players.map (fun p => p.id)).Nodup) (i : Nat) (hi : i < players.length) :
    mapGet (players.getD i default).id (playerIdToIndexMap players) = some i := by
  unfold playerIdToIndexMap
  rw [show players.enum = players.enumFrom 0 from rfl,
    mapGet_fold_idx players 0 [] i hi hids]
  congr 1
  omega

/-- The rebuilt roster at position `i` is the fresh player `⟨i, name-at-i⟩`. -/
theorem rebuilt_players_getD (names : List String) (i : Nat) (hi : i < names.length) :
    (names.enum.map (fun iv => (⟨iv.1, iv.2⟩ : Player))).getD i default =
      ⟨i, names.getD i default⟩ := by
  have hlen : i < (names.enum.map (fun iv => (⟨iv.1, iv.2⟩ : Player))).length := by
    simp [List.enum_length, hi]
  rw [List.getD_eq_getElem _ _ hlen, List.getElem_map, List.getElem_enum,
    List.getD_eq_getElem _ _ hi]

/-- Encode maps a roster member's id to its index; decode resolves that index
to the fresh player carrying the same name. -/
theorem slot_roundtrip (tn : Tournament)
    (hids : (tn.players.map (fun p => p.id)).Nodup) (q : Player) (hq : q ∈ tn.players) :
    ∃ i : Nat, i < tn.players.length ∧
      mapGet q.id (playerIdToIndexMap tn.players) = some i ∧
      lookupIdx ((tn.players.map (fun p => p.name)).enum.map
        (fun iv => (⟨iv.1, iv.2⟩ : Player))) (some ((i : Nat) : Int)) = some ⟨i, q.name⟩ := by
  obtain ⟨i, hi, hgi⟩ := List.getElem_of_mem hq
  have hgd : tn.players.getD i default = q := by rw [List.getD_eq_getElem _ _ hi, hgi]
  refine ⟨i, hi, ?_, ?_⟩
  · have h := mapGet_playerIdToIndexMap tn.players hids i hi
    rw [hgd] at h
    exact h
  · rw [show lookupIdx ((tn.players.map (fun p => p.name)).enum.map
        (fun iv => (⟨iv.1, iv.2⟩ : Player))) (some ((i : Nat) : Int)) =
        (if 0 ≤ ((i : Nat) : Int) ∧ ((i : Nat) : Int).toNat <
            ((tn.players.map (fun p => p.name)).enum.map
              (fun iv => (⟨iv.1, iv.2⟩ : Player))).length then
          some (((tn.players.map (fun p => p.name)).enum.map
            (fun iv => (⟨iv.1, iv.2⟩ : Player))).getD ((i : Nat) : Int).toNat default)
        else none) from rfl]
    rw [if_pos (by simp [List.enum_length, hi])]
    have hlen : i < (tn.players.map (fun p => p.name)).length := by simpa using hi
    rw [show ((i : Nat) : Int).toNat = i from by simp,
      rebuilt_players_getD _ i hlen,
      List.getD_eq_getElem _ _ hlen, List.getElem_map, hgi]

/-- C1 (amended): with conformant compression and serialization primitives,
decoding the encoded token of an invariant-satisfying tournament succeeds and
yields the structural rebuild, which preserves the name, the creation
timestamp, the player names in roster order, every match's team compositions
(by name), scores and completed flag; the rebuilt player ids are the roster
positions `0..N-1` (unique, positionally corresponding); location and time
are preserved up to the identification of the empty string with absence
(`"" || undefined` encodes falsy values as absent). -/
theorem codec_roundtrip (tn : Tournament)
    (stringify : ShareData → String) (deflate : String → List Nat)
    (inflate : List Nat → Option String) (parse : String → Option ShareData) (now : String)
    (hids : (tn.players.map (fun p => p.id)).Nodup)
    (hmem : ∀ m ∈ tn.matches',
      m.team1.player1 ∈ tn.players ∧ m.team1.player2 ∈ tn.players ∧
      m.team2.player1 ∈ tn.players ∧ m.team2.player2 ∈ tn.players)
    (hcs : ∀ m ∈ tn.matches', m.completed = true ↔ m.score1 ≠ none ∧ m.score2 ≠ none)
    (hbytes : ∀ b ∈ deflate (stringify (shareData tn)), b < 256)
    (hinf : inflate (deflate (stringify (shareData tn))) = some (stringify (shareData tn)))
    (hparse : parse (stringify (shareData tn)) = some (shareData tn)) :
    decodeShare inflate parse now (encodeShare stringify deflate tn) =
      some (rebuildTournament now (shareData tn)) ∧
    (rebuildTournament now (shareData tn)).name = tn.name ∧
    (rebuildTournament now (shareData tn)).createdAt = tn.createdAt ∧
    (rebuildTournament now (shareData tn)).location = orUndefined tn.location ∧
    (rebuildTournament now (shareData tn)).time = orUndefined tn.time ∧
    (rebuildTournament now (shareData tn)).players.map (fun p => p.name) =
      tn.players.map (fun p => p.name) ∧
    (rebuildTournament now (shareData tn)).players.map (fun p => p.id) =
      List.range tn.players.length ∧
    (rebuildTournament now (shareData tn)).matches'.length = tn.matches'.length ∧
    (∀ j, j < tn.matches'.length →
      ∃ q1 q2 q3 q4 : Player,
        ((rebuildTournament now (shareData tn)).matches'.getD j default).team1 =
          ⟨some q1, some q2⟩ ∧
        ((rebuildTournament now (shareData tn)).matches'.getD j default).team2 =
          ⟨some q3, some q4⟩ ∧
        q1.name = (tn.matches'.getD j default).team1.player1.name ∧
        q2.name = (tn.matches'.getD j default).team1.player2.name ∧
        q3.name = (tn.matches'.getD j default).team2.player1.name ∧
        q4.name = (tn.matches'.getD j default).team2.player2.name ∧
        ((rebuildTournament now (shareData tn)).matches'.getD j default).score1 =
          (tn.matches'.getD j default).score1 ∧
        ((rebuildTournament now (shareData tn)).matches'.getD j default).score2 =
          (tn.matches'.getD j default).score2 ∧
        ((rebuildTournament now (shareData tn)).matches'.getD j default).completed =
          (tn.matches'.getD j default).completed) := by
  refine ⟨?_, rfl, rfl, rfl, rfl, ?_, ?_, ?_, ?_⟩
  · unfold decodeShare encodeShare base64UrlToUint8Array uint8ArrayToBase64Url
    rw [asString_data]
    rw [atob_roundtrip _ hbytes]
    simp [hinf, hparse]
  · show ((shareData tn).p.enum.map (fun iv => (⟨iv.1, iv.2⟩ : Player))).map
      (fun p => p.name) = tn.players.map (fun p => p.name)
    rw [List.map_map]
    have : ((fun p => p.name) ∘ fun iv : Nat × String => (⟨iv.1, iv.2⟩ : Player)) =
        Prod.snd := rfl
    rw [this, List.enum_map_snd]
    rfl
  · show ((shareData tn).p.enum.map (fun iv => (⟨iv.1, iv.2⟩ : Player))).map
      (fun p => p.id) = List.range tn.players.length
    rw [List.map_map]
    have : ((fun p => p.id) ∘ fun iv : Nat × String => (⟨iv.1, iv.2⟩ : Player)) =
        Prod.fst := rfl
    rw [this, List.enum_map_fst]
    simp [shareData]
  · simp [rebuildTournament, shareData]
  · intro j hj
    have hm : tn.matches'.getD j default ∈ tn.matches' := by
      rw [List.getD_eq_getElem _ _ hj]
      exact List.getElem_mem hj
    obtain ⟨hq1, hq2, hq3, hq4⟩ := hmem _ hm
    obtain ⟨i1, hi1, hg1, hl1⟩ := slot_roundtrip tn hids _ hq1
    obtain ⟨i2, hi2, hg2, hl2⟩ := slot_roundtrip tn hids _ hq2
    obtain ⟨i3, hi3, hg3, hl3⟩ := slot_roundtrip tn hids _ hq3
    obtain ⟨i4, hi4, hg4, hl4⟩ := slot_roundtrip tn hids _ hq4
    have hrm : (rebuildTournament now (shareData tn)).matches'.getD j default =
        rebuildMatch ((tn.players.map (fun p => p.name)).enum.map
          (fun iv => (⟨iv.1, iv.2⟩ : Player)))
          (compactMatch (fun pid => mapGet pid (playerIdToIndexMap tn.players))
            (tn.matches'.getD j default)) := by
      show ((shareData tn).m.map _).getD j default = _
      rw [getD_map _ _ j (by simp [shareData, hj])]
      show rebuildMatch _ ((tn.matches'.map _).getD j default) = _
      rw [getD_map _ _ j hj]
      rfl
    have hred : rebuildMatch ((tn.players.map (fun p => p.name)).enum.map
        (fun iv => (⟨iv.1, iv.2⟩ : Player)))
        (compactMatch (fun pid => mapGet pid (playerIdToIndexMap tn.players))
          (tn.matches'.getD j default)) =
        { id := rawId
            (some ((mapGet (tn.matches'.getD j default).team1.player1.id
              (playerIdToIndexMap tn.players)).map (fun i => (i : Int))))
            (some ((mapGet (tn.matches'.getD j default).team1.player2.id
              (playerIdToIndexMap tn.players)).map (fun i => (i : Int))))
            (some ((mapGet (tn.matches'.getD j default).team2.player1.id
              (playerIdToIndexMap tn.players)).map (fun i => (i : Int))))
            (some ((mapGet (tn.matches'.getD j default).team2.player2.id
              (playerIdToIndexMap tn.players)).map (fun i => (i : Int))))
          team1 := ⟨lookupIdx ((tn.players.map (fun p => p.name)).enum.map
              (fun iv => (⟨iv.1, iv.2⟩ : Player)))
              ((mapGet (tn.matches'.getD j default).team1.player1.id
                (playerIdToIndexMap tn.players)).map (fun i => (i : Int))),
            lookupIdx ((tn.players.map (fun p => p.name)).enum.map
              (fun iv => (⟨iv.1, iv.2⟩ : Player)))
              ((mapGet (tn.matches'.getD j default).team1.player2.id
                (playerIdToIndexMap tn.players)).map (fun i => (i : Int)))⟩
          team2 := ⟨lookupIdx ((tn.players.map (fun p => p.name)).enum.map
              (fun iv => (⟨iv.1, iv.2⟩ : Player)))
              ((mapGet (tn.matches'.getD j default).team2.player1.id
                (playerIdToIndexMap tn.players)).map (fun i => (i : Int))),
            lookupIdx ((tn.players.map (fun p => p.name)).enum.map
              (fun iv => (⟨iv.1, iv.2⟩ : Player)))
              ((mapGet (tn.matches'.getD j default).team2.player2.id
                (playerIdToIndexMap tn.players)).map (fun i => (i : Int)))⟩
          score1 := (tn.matches'.getD j default).score1
          score2 := (tn.matches'.getD j default).score2
          completed := decide (some (tn.matches'.getD j default).score1 ≠ some none ∧
            some (tn.matches'.getD j default).score2 ≠ some none) } := rfl
    rw [hrm, hred]
    refine ⟨⟨i1, (tn.matches'.getD j default).team1.player1.name⟩,
      ⟨i2, (tn.matches'.getD j default).team1.player2.name⟩,
      ⟨i3, (tn.matches'.getD j default).team2.player1.name⟩,
      ⟨i4, (tn.matches'.getD j default).team2.player2.name⟩, ?_, ?_, rfl, rfl, rfl, rfl,
      rfl, rfl, ?_⟩
    · show RawTeam.mk _ _ = _
      rw [hg1, hg2]
      show RawTeam.mk
        (lookupIdx ((tn.players.map (fun p => p.name)).enum.map
          (fun iv => (⟨iv.1, iv.2⟩ : Player))) (some ((i1 : Nat) : Int)))
        (lookupIdx ((tn.players.map (fun p => p.name)).enum.map
          (fun iv => (⟨iv.1, iv.2⟩ : Player))) (some ((i2 : Nat) : Int))) = _
      rw [hl1, hl2]
    · show RawTeam.mk _ _ = _
      rw [hg3, hg4]
      show RawTeam.mk
        (lookupIdx ((tn.players.map (fun p => p.name)).enum.map
          (fun iv => (⟨iv.1, iv.2⟩ : Player))) (some ((i3 : Nat) : Int)))
        (lookupIdx ((tn.players.map (fun p => p.name)).enum.map
          (fun iv => (⟨iv.1, iv.2⟩ : Player))) (some ((i4 : Nat) : Int))) = _
      rw [hl3, hl4]
    · show decide (some (tn.matches'.getD j default).score1 ≠ some none ∧
        some (tn.matches'.getD j default).score2 ≠ some none) =
          (tn.matches'.getD j default).completed
      have hc := hcs _ hm
      cases hb : (tn.matches'.getD j default).completed with
      | false =>
          rw [hb] at hc
          have hnp : ¬ ((tn.matches'.getD j default).score1 ≠ none ∧
              (tn.matches'.getD j default).score2 ≠ none) := by
            intro hcontra
            exact absurd (hc.2 hcontra) (by simp)
          refine decide_eq_false ?_
          intro hcontra
          exact hnp ⟨fun h => hcontra.1 (by rw [h]), fun h => hcontra.2 (by rw [h])⟩
      | true =>
          rw [hb] at hc
          have h12 := hc.1 rfl
          exact decide_eq_true ⟨fun h => h12.1 (Option.some_injective _ h),
            fun h => h12.2 (Option.some_injective _ h)⟩

/-- Concrete tournament (non-positional ids, one completed match) for the
codec round-trip witness. -/
def rtT : Tournament :=
  ⟨"t1", "Cup", "2024", [⟨10, "A"⟩, ⟨20, "B"⟩, ⟨30, "C"⟩, ⟨40, "D"⟩],
    [⟨"10-20-30-40", ⟨⟨10, "A"⟩, ⟨20, "B"⟩⟩, ⟨⟨30, "C"⟩, ⟨40, "D"⟩⟩, some 11, some 5, true⟩],
    some "Court", some "tm"⟩

theorem codec_roundtrip_witness :
    (rtT.players.map (fun p => p.id)).Nodup ∧
    decodeShare (fun _ => some "s") (fun _ => some (shareData rtT)) "d"
        (encodeShare (fun _ => "s") (fun _ => [1, 2, 3]) rtT) =
      some (rebuildTournament "d" (shareData rtT)) ∧
    (rebuildTournament "d" (shareData rtT)).players.map (fun p => p.name) =
      rtT.players.map (fun p => p.name) ∧
    (rebuildTournament "d" (shareData rtT)).players.map (fun p => p.id) =
      List.range rtT.players.length :=
  ⟨by decide,
   (codec_roundtrip rtT (fun _ => "s") (fun _ => [1, 2, 3]) (fun _ => some "s")
      (fun _ => some (shareData rtT)) "d" (by decide) (by decide) (by decide) (by decide)
      rfl rfl).1,
   (codec_roundtrip rtT (fun _ => "s") (fun _ => [1, 2, 3]) (fun _ => some "s")
      (fun _ => some (shareData rtT)) "d" (by decide) (by decide) (by decide) (by decide)
      rfl rfl).2.2.2.2.2.1,
   (codec_roundtrip rtT (fun _ => "s") (fun _ => [1, 2, 3]) (fun _ => some "s")
      (fun _ => some (shareData rtT)) "d" (by decide) (by decide) (by decide) (by decide)
      rfl rfl).2.2.2.2.2.2.1⟩

/-- Tournament with an empty-string location, which the data-model invariants
allow (creation always stores a string, possibly empty). -/
def emptyLocT : Tournament :=
  ⟨"t1", "T", "now", [⟨0, "A"⟩, ⟨1, "B"⟩, ⟨2, "C"⟩, ⟨3, "D"⟩], [], some "", some "tm"⟩

/-- Counterexample to C1 as stated: with conformant primitives, the decoded
tournament of an encoded tournament whose location is the empty string has
NO location (`"" || undefined` drops it), so "the same location" fails. -/
theorem codec_empty_location_cex :
    (emptyLocT.players.map (fun p => p.id)).Nodup ∧
    decodeShare (fun _ => some "x") (fun _ => some (shareData emptyLocT)) "d"
        (encodeShare (fun _ => "x") (fun _ => [7]) emptyLocT) =
      some (rebuildTournament "d" (shareData emptyLocT)) ∧
    emptyLocT.location = some "" ∧
    (rebuildTournament "d" (shareData emptyLocT)).location = none := by
  refine ⟨by decide, ?_, rfl, rfl⟩
  decide
